import Mathlib

/-!
# Verification of the `ec_978` decoder (fisb-978)

Shallow embedding of the error-correcting decoder `ec_978.py` for 978 MHz UAT
transmissions (FIS-B ground uplink and ADS-B frames), together with proofs
about the claims of its specification.

Modelling conventions:
* Demodulated int32 soft samples are modelled as rationals (`ℚ`); the shift
  weights of `SHIFT_BY_PROBABILITY` are exact decimal fractions, so every
  arithmetic step of the Python source is mirrored exactly up to the usual
  real-arithmetic reading of floating point.  Only the sign of a shifted
  sample is ever consumed (by the hard slicer), so this reading is faithful.
* Out-of-range numpy reads are modelled with `List.getD _ _ 0`; all concrete
  inputs used in witnesses stay within the shapes the program actually uses.
* The external `pyreedsolomon` decoder is not part of this repository; it is
  modelled as an abstract function `decode : List ℕ → List ℕ × ℤ` returning
  the corrected message and an error count (negative on failure), exactly the
  interface the source consumes.  Theorems that need it assume only the
  interface property stated in the spec (a successful decode reports at most
  `r` corrected symbols).
* In-place numpy mutation (the block-zero fixed-bit writes alias the caller's
  `bits` array at shift 0) is modelled by explicit state passing: the final
  state of the `bits` array is returned alongside the source's return values.
* Python exceptions are modelled with `Except String`: the call
  `computePercentAboveAveOne(sample, aveOne, 128, 1.10)` at `ec_978.py:684`
  passes four positional arguments to a three-parameter function, which
  raises `TypeError` in Python.
-/

-- The Batteries rational arithmetic is `@[irreducible]`, which keeps
-- `decide`/`rfl` from evaluating the embedding on concrete frames; restore
-- reducibility for this development (proofs still go through the kernel).
attribute [local semireducible] Rat.ofScientific Rat.mul Rat.inv Rat.add Rat.sub

set_option maxRecDepth 40000

namespace Ec978

/-- The ordered shift table `SHIFT_BY_PROBABILITY` of `ec_978.py`. -/
def SHIFT_BY_PROBABILITY : List ℚ :=
  [0, -0.75, 0.75, -0.50, 0.50, -0.25,
   0.25, -0.85, 0.40, 0.65, -0.30, 0.80, -0.05, 0.05, -0.90, 0.90,
   -0.10, 0.10, 0.85, -0.15, 0.15, -0.80, -0.65, -0.35, 0.35,
   -0.70, 0.70, 0.30, -0.40, -0.60, 0.60, -0.20, 0.20, -0.45,
   0.45, -0.55, 0.55]

/-- Abstract model of a `pyreedsolomon` Reed-Solomon decoder object.
`decode` takes the received word (a list of byte values) and returns the
corrected message together with the number of corrected errors; a negative
count signals an uncorrectable word, exactly the interface used by
`packAndTest` in the source. -/
structure RSDecoder where
  decode : List ℕ → List ℕ × ℤ

/-- The global configuration flags of `ec_978.py` that the decode paths read:
`replace_f6b` (`--f6b`), `block_zero_fixed_bits` (`--nobzfb` clears it),
`fix_trailing_zeros` (`--noftz` clears it) and the parsed `f6bArray`. -/
structure Config where
  replace_f6b : Bool
  block_zero_fixed_bits : Bool
  fix_trailing_zeros : Bool
  f6bArray : List (List ℕ)

/-- `samples[start : stop : 2]`: every second sample from `start` (inclusive)
to `stop` (exclusive), as used by `extractBlockBitsAdsb`. -/
def sliceStride2 (samples : List ℚ) (start stop : ℕ) : List ℚ :=
  (List.range ((stop - start + 1) / 2)).map (fun k => samples.getD (start + 2 * k) 0)

/-- The inner loop of `extractBlockBitsFisb`: starting at sample pointer
`ptr`, collect `n` 8-bit words, each word being 16 consecutive samples at
stride 2, advancing the pointer by 96 samples between words (the FIS-B
block deinterleave). -/
def extractWords (samples : List ℚ) (ptr : ℕ) : ℕ → List ℚ
  | 0 => []
  | n + 1 =>
    (List.range 8).map (fun k => samples.getD (ptr + 2 * k) 0) ++
      extractWords samples (ptr + 96) n

/-- `extractBlockBitsFisb(samples, offset, blockNumber)`: the deinterleaved
on-time bits of a FIS-B block, together with the one-sample-earlier and
one-sample-later arrays.  The start pointer is `offset + (8*blockNumber)*2`
and each of the 92 words advances the pointer by 96. -/
def extractBlockBitsFisb (samples : List ℚ) (offset blockNumber : ℕ) :
    List ℚ × List ℚ × List ℚ :=
  let samplesPtr := offset + (8 * blockNumber) * 2
  (extractWords samples samplesPtr 92,
   extractWords samples (samplesPtr - 1) 92,
   extractWords samples (samplesPtr + 1) 92)

/-- `extractBlockBitsAdsb(samples, offset, isShort)`: the on-time, before and
after sample arrays of an ADS-B packet (30 bytes short, 48 bytes long). -/
def extractBlockBitsAdsb (samples : List ℚ) (offset : ℕ) (isShort : Bool) :
    List ℚ × List ℚ × List ℚ :=
  let numBytes := if isShort then 30 else 48
  (sliceStride2 samples offset (numBytes * 16),
   sliceStride2 samples (offset - 1) (numBytes * 16 - 1),
   sliceStride2 samples (offset + 1) (numBytes * 16 + 1))

/-- `shiftBits(bits, neighborBits, shiftAmount)`: blend each sample with a
fraction of its neighbor, `(bits + neighborBits * shiftAmount) / 2`. -/
def shiftBits (bits neighborBits : List ℚ) (shiftAmount : ℚ) : List ℚ :=
  List.zipWith (fun b n => (b + n * shiftAmount) / 2) bits neighborBits

/-- The hard slicer `np.where(bits > 0, 1, 0)` of `packAndTest`. -/
def bit01 (b : ℚ) : ℕ := if 0 < b then 1 else 0

/-- Pack a list of 0/1 bits into one byte, most significant bit first. -/
def byteOfBits (l : List ℕ) : ℕ := l.foldl (fun a b => 2 * a + b) 0

/-- `np.packbits`: group the hard-sliced bits into bytes MSB-first, padding
the final byte with zero bits. -/
def packBitsAux : List ℕ → List ℕ
  | [] => []
  | b0 :: b1 :: b2 :: b3 :: b4 :: b5 :: b6 :: b7 :: rest =>
    byteOfBits [b0, b1, b2, b3, b4, b5, b6, b7] :: packBitsAux rest
  | l => [byteOfBits (l ++ List.replicate (8 - l.length) 0)]

/-- Turn soft samples into packed bytes: `np.packbits(np.where(bits > 0, 1, 0))`. -/
def packBits (bits : List ℚ) : List ℕ := packBitsAux (bits.map bit01)

/-- Hex encoding of a byte list (`tobytes().hex()` in the source); only its
length is ever inspected by the decode logic. -/
def hexStr (bs : List ℕ) : List Char :=
  bs.flatMap (fun b =>
    [if b / 16 < 10 then Char.ofNat (48 + b / 16) else Char.ofNat (87 + b / 16),
     if b % 16 < 10 then Char.ofNat (48 + b % 16) else Char.ofNat (87 + b % 16)])

/-- The `--f6b` loop inside `packAndTest`: overwrite the first six bytes of
the packed word with each candidate prefix in turn and accept the first
candidate the Reed-Solomon decoder corrects; report sentinel `-74` when no
candidate decodes. -/
def f6bLoop (rs : RSDecoder) (byts : List ℕ) : List (List ℕ) → Option (List ℕ) × ℤ
  | [] => (none, -74)
  | c :: rest =>
    let byts' := c.take 6 ++ byts.drop 6
    let r := rs.decode byts'
    if 0 ≤ r.2 then (some r.1, r.2) else f6bLoop rs byts rest

/-- `packAndTest(rs, bits, f6b)`: hard-slice and pack `bits`, then run the
Reed-Solomon decoder; with `f6b` set, try each configured six-byte prefix.
Returns the corrected message (as bytes; the source returns its hex string)
and the error count. -/
def packAndTest (rs : RSDecoder) (cfg : Config) (bits : List ℚ) (f6b : Bool) :
    Option (List ℕ) × ℤ :=
  let byts := packBits bits
  if f6b = false then
    let r := rs.decode byts
    if 0 ≤ r.2 then (some r.1, r.2) else (none, r.2)
  else
    f6bLoop rs byts cfg.f6bArray

/-- The block-zero fixed-bit override of `tryShiftBits`: force the known
header bits of FIS-B block 0 to large sentinels before slicing
(`shiftedBits[48] = +10000`, ..., `shiftedBits[75] = -10000`). -/
def applyBlock0FixedBits (bits : List ℚ) : List ℚ :=
  ((((((((((bits.set 48 10000).set 49 (-10000)).set 50 10000).set 60
      (-10000)).set 61 (-10000)).set 62 (-10000)).set 63 (-10000)).set 73
      (-10000)).set 74 (-10000)).set 75 (-10000))

/-- Result of `tryShiftBits`.  The first four fields are the source's return
tuple; `bits` is the final state of the caller's `bits` array, which the
source mutates in place through the `shiftedBits = bits` alias when the
shift-0 attempt runs with `block0FixedBits` set. -/
structure TSBResult where
  status : Bool
  hex : Option (List ℕ)
  errs : ℤ
  shift : ℚ
  bits : List ℚ
  deriving Repr, DecidableEq

/-- The sweep loop of `tryShiftBits` over the shift table: skip the shift
already tried as `tryFirst`; at shift 0 the shifted array *is* the caller's
array (`shiftedBits = bits`), so the fixed-bit writes mutate it — modelled by
updating the threaded `bitsState`. -/
def sweepShifts (rs : RSDecoder) (cfg : Config)
    (bitsBefore bitsAfter : List ℚ) (tryFirst : ℚ) (f6b block0FixedBits : Bool) :
    List ℚ → List ℚ → TSBResult
  | bitsState, [] => ⟨false, none, 98, -1, bitsState⟩
  | bitsState, shift :: rest =>
    if shift = tryFirst then
      sweepShifts rs cfg bitsBefore bitsAfter tryFirst f6b block0FixedBits bitsState rest
    else
      let raw := if shift = 0 then bitsState
                 else if 0 < shift then shiftBits bitsState bitsBefore shift
                 else shiftBits bitsState bitsAfter (-shift)
      let shifted := if block0FixedBits then applyBlock0FixedBits raw else raw
      let bitsState' := if shift = 0 ∧ block0FixedBits then shifted else bitsState
      let r := packAndTest rs cfg shifted f6b
      if 0 ≤ r.2 then ⟨true, r.1, r.2, shift, bitsState'⟩
      else sweepShifts rs cfg bitsBefore bitsAfter tryFirst f6b block0FixedBits bitsState' rest

/-- `tryShiftBits(rs, bits, bitsBefore, bitsAfter, tryFirst, f6b,
block0FixedBits)`: if a `tryFirst` hint (≠ -1) is given, try that shift
first (without the fixed-bit override, exactly as in the source); then sweep
the whole `SHIFT_BY_PROBABILITY` table, skipping the hint. -/
def tryShiftBits (rs : RSDecoder) (cfg : Config)
    (bits bitsBefore bitsAfter : List ℚ) (tryFirst : ℚ)
    (f6b block0FixedBits : Bool) : TSBResult :=
  if tryFirst ≠ -1 then
    let shifted := if tryFirst = 0 then bits
                   else if 0 < tryFirst then shiftBits bits bitsBefore tryFirst
                   else shiftBits bits bitsAfter (-tryFirst)
    let r := packAndTest rs cfg shifted f6b
    if 0 ≤ r.2 then ⟨true, r.1, r.2, tryFirst, bits⟩
    else sweepShifts rs cfg bitsBefore bitsAfter tryFirst f6b block0FixedBits bits
      SHIFT_BY_PROBABILITY
  else sweepShifts rs cfg bitsBefore bitsAfter tryFirst f6b block0FixedBits bits
    SHIFT_BY_PROBABILITY

/-- Result of `blockZeroTricks`.  `status`, `hexBlocks` and `errs` are the
source's return tuple; `bits` is the final state of the caller's (aliased,
possibly mutated) `bits` array and `shift` the successful shift that the
source discards with `_`. -/
structure BZTResult where
  status : Bool
  hexBlocks : List (Option (List ℕ))
  errs : ℤ
  bits : List ℚ
  shift : ℚ

/-- `blockZeroTricks(bits, bitsBefore, bitsAfter, hexBlocks)`: retry block 0
with the first-six-byte replacement and/or the block-zero fixed bits,
through `tryShiftBits(rsFisb, bits, bitsBefore, bitsAfter, -1, replace_f6b,
block_zero_fixed_bits)`. -/
def blockZeroTricks (rs : RSDecoder) (cfg : Config)
    (bits bitsBefore bitsAfter : List ℚ) (hexBlocks : List (Option (List ℕ))) :
    BZTResult :=
  let r := tryShiftBits rs cfg bits bitsBefore bitsAfter (-1)
    cfg.replace_f6b cfg.block_zero_fixed_bits
  if r.status then ⟨true, hexBlocks.set 0 r.hex, r.errs, r.bits, r.shift⟩
  else ⟨false, hexBlocks, 98, r.bits, r.shift⟩

/-- `computeAverage1(bits)`: average of the non-negative samples of the first
8 bytes (`bits[0:64]`) and the 20 parity bytes (`bits[576:736]`);
`np.delete(x, np.where(x < 0))` keeps the samples that are ≥ 0. -/
def computeAverage1 (bits : List ℚ) : ℚ :=
  let frontBits := bits.take 64
  let parityBits := (bits.drop 576).take 160
  let frontOnes := frontBits.filter (fun b => decide (0 ≤ b))
  let parityOnes := parityBits.filter (fun b => decide (0 ≤ b))
  let totalOnes := frontOnes.length + parityOnes.length
  (frontOnes.sum + parityOnes.sum) / (totalOnes : ℚ)

/-- `computeAverage0(bits)`: average of the samples that are ≤ 0. -/
def computeAverage0 (bits : List ℚ) : ℚ :=
  let zeros := bits.filter (fun b => decide (b ≤ 0))
  zeros.sum / (zeros.length : ℚ)

/-- `computePercentAboveAveOne(bits, aveOne, adjFactor)` as defined at
`ec_978.py:604`: the fraction of samples that are ≥ `aveOne * adjFactor`.
Note the *three* parameters. -/
def computePercentAboveAveOne (bits : List ℚ) (aveOne adjFactor : ℚ) : ℚ :=
  let aveOneAdj := aveOne * adjFactor
  let aboveAveBits := (bits.filter (fun b => decide (aveOneAdj ≤ b))).length
  (aboveAveBits : ℚ) / (bits.length : ℚ)

/-- The call `computePercentAboveAveOne(sample, aveOne, 128, 1.10)` made by
`fixZeros` at `ec_978.py:684`.  It passes **four** positional arguments to
the three-parameter function `computePercentAboveAveOne` (`bits`, `aveOne`,
`adjFactor`), so Python raises `TypeError` before anything is computed. -/
def computePercentAboveAveOneCall4 (_sample : List ℚ) (_aveOne _arg3 _arg4 : ℚ) :
    Except String ℚ :=
  Except.error "TypeError: computePercentAboveAveOne() takes 3 positional arguments but 4 were given"

/-- The backwards quarter walk of `fixZeros` (`for i in range(576, 63, -128)`):
inspect each 128-sample quarter, break when the fraction of samples above the
adjusted one-average exceeds 2%.  Every iteration makes the four-argument
call of `ec_978.py:684`, so the first iteration already raises. -/
def fixZerosQuarterLoop (block : List ℚ) (aveOne : ℚ) :
    List ℕ → ℕ → Bool → Except String (ℕ × Bool)
  | [], startValue, foundAnyZeros => Except.ok (startValue, foundAnyZeros)
  | i :: rest, startValue, foundAnyZeros => do
    let sample := (block.drop (i - 128)).take 128
    let percentAboveAveOne ← computePercentAboveAveOneCall4 sample aveOne 128 1.10
    if 2 / 100 < percentAboveAveOne then Except.ok (startValue, foundAnyZeros)
    else
      fixZerosQuarterLoop block aveOne rest
        (if i ≠ 64 then i - 128 else startValue) true

/-- The refinement scan of `fixZeros`: walk backwards from `startValue - 1`
looking for the first sample above the 87% threshold. -/
def refineScan (block : List ℚ) (threshold : ℚ) : List ℕ → Option ℕ
  | [] => none
  | i :: rest =>
    if threshold < block.getD i 0 then some i else refineScan block threshold rest

/-- `fixZeros(block)`: find a run of trailing zeros in a failed FIS-B block
and replace it by the block's average zero value.  As written in the source
the quarter walk immediately raises `TypeError` (four arguments passed to
the three-parameter `computePercentAboveAveOne`), which this embedding
propagates as `Except.error`. -/
def fixZeros (block : List ℚ) : Except String (Bool × List ℚ) := do
  let aveOne := computeAverage1 block
  let (startValue, foundAnyZeros) ←
    fixZerosQuarterLoop block aveOne [576, 448, 320, 192, 64] 576 false
  let (newStartValue, foundAnyZeros) :=
    if startValue ≠ 64 then
      let threshold := aveOne * 0.87
      match refineScan block threshold
        (List.range 127 |>.map (fun k => startValue - 1 - k)) with
      | some i =>
        let n0 := i + 8
        let rem := n0 % 8
        let n1 := if rem ≠ 0 then n0 + (8 - rem) else n0
        if startValue < n1 then (startValue, foundAnyZeros) else (n1, true)
      | none => (startValue, foundAnyZeros)
    else (startValue, foundAnyZeros)
  if foundAnyZeros then
    let ave0 := computeAverage0 block
    Except.ok (true, block.mapIdx (fun n v =>
      if newStartValue ≤ n ∧ n < 576 then ave0 else v))
  else Except.ok (false, block)

/-- The block gathering loop of `block0ThoroughCheck` (`for i in range(1, 5)`):
append the decoded blocks 1..4 that are consecutive with block 0, stopping at
the first missing one.  Block 5 is never inspected by the source loop. -/
def gatherConsecutive : List (Option (List ℕ)) → List ℕ
  | [] => []
  | none :: _ => []
  | some b :: rest => b ++ gatherConsecutive rest

/-- The 9-bit UAT inner-frame length read at byte pointer `p`:
`(dataBytes[p] << 1) | (dataBytes[p+1] >> 7)`. -/
def uatFrameLenAt (dataBytes : List ℕ) (p : ℕ) : ℕ :=
  dataBytes.getD p 0 * 2 + dataBytes.getD (p + 1) 0 / 128

/-- The frame walk of `block0ThoroughCheck`, with an explicit fuel bound on
the number of iterations so that the recursion is structural.  Each
iteration either stops or advances the byte pointer by at least 2, so any
fuel `≥ dataBytes.length - p` reproduces the source's unbounded `while`
loop (`findEmptyFrameFuel_congr` below). -/
def findEmptyFrameFuel (dataBytes : List ℕ) : ℕ → ℕ → Option ℕ
  | 0, _ => none
  | fuel + 1, p =>
    if dataBytes.length ≤ p + 1 then none
    else
      let uatFrameLen := uatFrameLenAt dataBytes p
      if uatFrameLen = 0 then some p
      else findEmptyFrameFuel dataBytes fuel (p + uatFrameLen + 2)

/-- The frame walk of `block0ThoroughCheck`: starting at byte pointer `p`,
jump over inner UAT frames until an empty frame (length 0) is found, and
return the byte pointer where it was found; `none` when the pointer runs
past the available bytes. -/
def findEmptyFrame (dataBytes : List ℕ) (p : ℕ) : Option ℕ :=
  findEmptyFrameFuel dataBytes (dataBytes.length + 1 - p) p

/-- The zero-fill of `block0ThoroughCheck`
(`for i in range(currentBlock+1, 6): hexBlocks[i] = '00' * 72`). -/
def fillZeroBlocks (hexBlocks : List (Option (List ℕ))) (currentBlock : ℕ) :
    List (Option (List ℕ)) :=
  (List.range' (currentBlock + 1) (6 - (currentBlock + 1))).foldl
    (fun hb i => hb.set i (some (List.replicate 72 0))) hexBlocks

/-- `block0ThoroughCheck(hexBlocks)`: if block 0 is decoded, walk the inner
UAT frames of the consecutive decoded blocks starting at byte 8; on finding
an empty frame at byte pointer `p`, set every block after `(p+1) // 72` to 72
zero bytes and report success; otherwise report failure with `hexBlocks`
unchanged. -/
def block0ThoroughCheck (hexBlocks : List (Option (List ℕ))) :
    Bool × List (Option (List ℕ)) :=
  match hexBlocks.getD 0 none with
  | none => (false, hexBlocks)
  | some b0 =>
    let dataBytes := b0 ++ gatherConsecutive ((hexBlocks.drop 1).take 4)
    match findEmptyFrame dataBytes 8 with
    | some p => (true, fillZeroBlocks hexBlocks ((p + 1) / 72))
    | none => (false, hexBlocks)

/-- The payload-type/length validation of `decodeAdsb`: the corrected hex
string must be 36 characters with payload type code 0 (short) or 68
characters with payload type code 1..6 (long). -/
def decodeAdsbValidate (m : List ℕ) (errs : ℤ) : Bool × Option (List ℕ) × ℤ :=
  let hexBlockLen := (hexStr m).length
  let byte0 := m.getD 0 0
  let payloadTypeCode := (byte0 &&& 0xF8) >>> 3
  if payloadTypeCode = 0 ∧ hexBlockLen = 36 then (true, some m, errs)
  else if 0 < payloadTypeCode ∧ payloadTypeCode < 7 ∧ hexBlockLen = 68 then
    (true, some m, errs)
  else (false, none, 98)

/-- The shift-strategy attempt inside `decodeAdsb(samples, offset,
isShort)`: extract the ADS-B bits and run `tryShiftBits` against the short
or long Reed-Solomon instance with no hint. -/
def adsbAttempt (rsAdsbS rsAdsbL : RSDecoder) (cfg : Config)
    (samples : List ℚ) (offset : ℕ) (isShort : Bool) : TSBResult :=
  let rs := if isShort then rsAdsbS else rsAdsbL
  let e := extractBlockBitsAdsb samples offset isShort
  tryShiftBits rs cfg e.1 e.2.1 e.2.2 (-1) false false

/-- `decodeAdsb(samples, offset, isShort)` proper: run the attempt and
validate the corrected message. -/
def decodeAdsb (rsAdsbS rsAdsbL : RSDecoder) (cfg : Config)
    (samples : List ℚ) (offset : ℕ) (isShort : Bool) :
    Bool × Option (List ℕ) × ℤ :=
  let r := adsbAttempt rsAdsbS rsAdsbL cfg samples offset isShort
  if r.status then
    match r.hex with
    | some m => decodeAdsbValidate m r.errs
    | none => (false, none, 98)
  else (false, none, 98)

/-- The short/long guess loop of `processAdsbPacket`
(`isShort = True; for x in range(1, 10, 2): if samples[x] <= 0: isShort =
False; break`). -/
def adsbIsShortHintLoop (samples : List ℚ) : List ℕ → Bool
  | [] => true
  | x :: rest =>
    if samples.getD x 0 ≤ 0 then false else adsbIsShortHintLoop samples rest

/-- The initial short/long hypothesis of `processAdsbPacket`, computed from
the on-time samples at indices 1, 3, 5, 7, 9. -/
def adsbIsShortHint (samples : List ℚ) : Bool :=
  adsbIsShortHintLoop samples [1, 3, 5, 7, 9]

/-- `processAdsbPacket(samples, ...)`: guess short/long from the first five
on-time samples, then fan out over (offset, hypothesis) attempts in the
source's priority order.  Returns the success flag, the corrected message
with its error count (the inputs of the output formatting), and the
`isShort` flag that the source returns — the initial hint, whatever attempt
succeeded. -/
def processAdsbPacket (rsAdsbS rsAdsbL : RSDecoder) (cfg : Config)
    (samples : List ℚ) : Bool × Option (Option (List ℕ) × ℤ) × Bool :=
  let offset := 1
  let isShort := adsbIsShortHint samples
  let a1 := decodeAdsb rsAdsbS rsAdsbL cfg samples offset isShort
  if a1.1 then (true, some (a1.2.1, a1.2.2), isShort)
  else
    let a2 := decodeAdsb rsAdsbS rsAdsbL cfg samples offset (!isShort)
    if a2.1 then (true, some (a2.2.1, a2.2.2), isShort)
    else
      let a3 := decodeAdsb rsAdsbS rsAdsbL cfg samples (offset + 1) (!isShort)
      if a3.1 then (true, some (a3.2.1, a3.2.2), isShort)
      else
        let a4 := decodeAdsb rsAdsbS rsAdsbL cfg samples (offset + 1) isShort
        if a4.1 then (true, some (a4.2.1, a4.2.2), isShort)
        else (false, none, isShort)

/-- Ghost record of one attempted block inside a `decodeFisb` pass:
the block number, the `tryFirst` hint (`shiftThatWorked`) passed to the
primary `tryShiftBits` call, the shift of a primary success (`none` if the
primary call failed), and the shift that ultimately decoded the block in
this pass (primary or block-zero tricks; `none` if the block stayed
undecoded). -/
structure TraceEntry where
  block : ℕ
  hint : ℚ
  primary : Option ℚ
  final : Option ℚ
  deriving Repr, DecidableEq

instance : Inhabited TraceEntry := ⟨⟨0, 0, none, none⟩⟩

/-- The code after the block loop of `decodeFisb`: if some block is still
undecoded, make a final `block0ThoroughCheck`; otherwise every block was
error corrected. -/
def decodeFisbAfterLoop (hexBlocks : List (Option (List ℕ))) (hexErrs : List ℤ) :
    Bool × List (Option (List ℕ)) × List ℤ :=
  if none ∈ hexBlocks then
    let tc := block0ThoroughCheck hexBlocks
    (tc.1, tc.2, hexErrs)
  else (true, hexBlocks, hexErrs)

/-- The trailing-zero branch at the end of the `decodeFisb` block loop,
reached with `status == False`: optionally repair trailing zeros and retry.
`bits` here is the caller's array as left by the preceding attempts (the
block-zero tricks mutate it in place at shift 0).  The result is either
`Sum.inl` — the block loop stops here, with the final trace and return value
(the source's `break`, an early `return`, or the propagated `TypeError`) —
or `Sum.inr` — the retry decoded the block and the loop continues with the
updated `hexBlocks`, `hexErrs` and trace. -/
def decodeFisbFtz (rs : RSDecoder) (cfg : Config)
    (block : ℕ) (hexBlocks : List (Option (List ℕ)))
    (hexErrs : List ℤ) (shiftThatWorked : ℚ) (tr : List TraceEntry)
    (bits bitsBefore bitsAfter : List ℚ) :
    (List TraceEntry × Except String (Bool × List (Option (List ℕ)) × List ℤ)) ⊕
      (List (Option (List ℕ)) × List ℤ × List TraceEntry) :=
  if cfg.fix_trailing_zeros then
    match fixZeros bits with
    | Except.error e =>
      Sum.inl (tr ++ [⟨block, shiftThatWorked, none, none⟩], Except.error e)
    | Except.ok (foundAnyZeros, bits') =>
      if foundAnyZeros then
        let r := tryShiftBits rs cfg bits' bitsBefore bitsAfter shiftThatWorked false false
        let hexBlocks := hexBlocks.set block r.hex
        let hexErrs := hexErrs.set block r.errs
        if r.status then
          let tr := tr ++ [⟨block, shiftThatWorked, none, some r.shift⟩]
          let tc := block0ThoroughCheck hexBlocks
          if tc.1 then Sum.inl (tr, Except.ok (true, tc.2, hexErrs))
          else Sum.inr (tc.2, hexErrs, tr)
        else
          Sum.inl (tr ++ [⟨block, shiftThatWorked, none, none⟩],
            Except.ok (decodeFisbAfterLoop hexBlocks hexErrs))
      else
        Sum.inl (tr ++ [⟨block, shiftThatWorked, none, none⟩],
          Except.ok (decodeFisbAfterLoop hexBlocks hexErrs))
  else
    Sum.inl (tr ++ [⟨block, shiftThatWorked, none, none⟩],
      Except.ok (decodeFisbAfterLoop hexBlocks hexErrs))

/-- The block loop of `decodeFisb`, with the mutable state passed explicitly:
`hexBlocks`, `hexErrs`, `shiftThatWorked` and the ghost trace of attempted
blocks.  Paths are exactly the source's: primary `tryShiftBits`, block-zero
tricks for block 0, the trailing-zero repair (whose `fixZeros` call raises,
see `fixZeros`), and the `break` when a block stays undecoded. -/
def decodeFisbLoop (rs : RSDecoder) (cfg : Config) (samples : List ℚ)
    (offset : ℕ) :
    List ℕ → List (Option (List ℕ)) → List ℤ → ℚ → List TraceEntry →
    List TraceEntry × Except String (Bool × List (Option (List ℕ)) × List ℤ)
  | [], hexBlocks, hexErrs, _, tr =>
    (tr, Except.ok (decodeFisbAfterLoop hexBlocks hexErrs))
  | block :: rest, hexBlocks, hexErrs, shiftThatWorked, tr =>
    if (hexBlocks.getD block none).isSome then
      decodeFisbLoop rs cfg samples offset rest hexBlocks hexErrs shiftThatWorked tr
    else
      let e := extractBlockBitsFisb samples offset block
      let bits := e.1
      let bitsBefore := e.2.1
      let bitsAfter := e.2.2
      let r := tryShiftBits rs cfg bits bitsBefore bitsAfter shiftThatWorked false false
      let hexErrs := hexErrs.set block r.errs
      if r.status then
        let hexBlocks := hexBlocks.set block r.hex
        let tr := tr ++ [⟨block, shiftThatWorked, some r.shift, some r.shift⟩]
        if block = 0 then
          let tc := block0ThoroughCheck hexBlocks
          if tc.1 then (tr, Except.ok (true, tc.2, hexErrs))
          else decodeFisbLoop rs cfg samples offset rest tc.2 hexErrs r.shift tr
        else decodeFisbLoop rs cfg samples offset rest hexBlocks hexErrs r.shift tr
      else
        -- Extra checks for block 0: blockZeroTricks (which may mutate `bits`
        -- in place through the shift-0 alias), then the trailing-zero repair.
        let bzt :=
          if block = 0 ∧ (cfg.replace_f6b ∨ cfg.block_zero_fixed_bits) then
            some (blockZeroTricks rs cfg bits bitsBefore bitsAfter hexBlocks)
          else none
        let ftz :=
          match bzt with
          | some t =>
            let hexErrs := hexErrs.set block t.errs
            if t.status then
              let tr := tr ++ [⟨block, shiftThatWorked, none, some t.shift⟩]
              let tc := block0ThoroughCheck t.hexBlocks
              if tc.1 then Sum.inl (tr, Except.ok (true, tc.2, hexErrs))
              else Sum.inr (tc.2, hexErrs, tr)
            else
              decodeFisbFtz rs cfg block t.hexBlocks hexErrs
                shiftThatWorked tr t.bits bitsBefore bitsAfter
          | none =>
            decodeFisbFtz rs cfg block hexBlocks hexErrs
              shiftThatWorked tr bits bitsBefore bitsAfter
        match ftz with
        | Sum.inl result => result
        | Sum.inr (hexBlocks', hexErrs', tr') =>
          decodeFisbLoop rs cfg samples offset rest hexBlocks' hexErrs' shiftThatWorked tr'

/-- `decodeFisb(samples, offset, hexBlocks, hexErrs)` together with the ghost
trace of attempted blocks: initialise `hexBlocks` to six `None`s and
`hexErrs` to six `99`s on a first call, start with no shift hint
(`shiftThatWorked = -1`), and run the block loop over blocks 0..5. -/
def decodeFisbAux (rs : RSDecoder) (cfg : Config) (samples : List ℚ)
    (offset : ℕ) (hexBlocks0 : Option (List (Option (List ℕ))))
    (hexErrs0 : Option (List ℤ)) :
    List TraceEntry × Except String (Bool × List (Option (List ℕ)) × List ℤ) :=
  let hexBlocks := hexBlocks0.getD (List.replicate 6 none)
  let hexErrs := hexErrs0.getD (List.replicate 6 99)
  decodeFisbLoop rs cfg samples offset [0, 1, 2, 3, 4, 5] hexBlocks hexErrs (-1) []

/-- `decodeFisb` proper: the source's return value (the ghost trace
projected away). -/
def decodeFisb (rs : RSDecoder) (cfg : Config) (samples : List ℚ)
    (offset : ℕ) (hexBlocks0 : Option (List (Option (List ℕ))))
    (hexErrs0 : Option (List ℤ)) :
    Except String (Bool × List (Option (List ℕ)) × List ℤ) :=
  (decodeFisbAux rs cfg samples offset hexBlocks0 hexErrs0).2

/-! ## Claim-side predicates and concrete fixtures -/

/-- The spec's acceptance condition for an ADS-B decode: the payload type
code (top five bits of byte 0 of the corrected message) is 0 with a
36-hex-character payload, or 1..6 with a 68-hex-character payload. -/
def adsbPayloadValid : Option (List ℕ) → Bool
  | none => false
  | some m =>
    let payloadTypeCode := (m.getD 0 0 &&& 0xF8) >>> 3
    decide ((payloadTypeCode = 0 ∧ (hexStr m).length = 36) ∨
      (1 ≤ payloadTypeCode ∧ payloadTypeCode ≤ 6 ∧ (hexStr m).length = 68))

/-- A legal per-block error count surfaced to the caller: in `[0, r]` with
`r` the number of parity symbols, or the failure sentinel 98, or the
not-yet-attempted sentinel 99. -/
def isValidErr (r e : ℤ) : Bool := decide ((0 ≤ e ∧ e ≤ r) ∨ e = 98 ∨ e = 99)

/-- All surfaced error counts of a FIS-B frame are legal. -/
def errsAllValid (r : ℤ) (l : List ℤ) : Bool := l.all (isValidErr r)

/-- The claimed hint discipline of one `decodeFisb` pass, as a predicate on
the ghost trace: starting from hint state `h0`, each attempted block is
handed the current hint, and the hint state advances to the shift of that
block's primary success (staying unchanged otherwise). -/
def chainFrom (h0 : ℚ) : List TraceEntry → Prop
  | [] => True
  | e :: rest =>
    e.hint = h0 ∧
      chainFrom (match e.primary with | some s => s | none => h0) rest

/-- The hint state after a trace, for the `chainFrom` induction. -/
def hintAfter (h0 : ℚ) : List TraceEntry → ℚ
  | [] => h0
  | e :: rest => hintAfter (match e.primary with | some s => s | none => h0) rest

/-- A Reed-Solomon model that corrects every word to the same message. -/
def rsAlways (m : List ℕ) (e : ℤ) : RSDecoder := ⟨fun _ => (m, e)⟩

/-- A Reed-Solomon model that fails on every word. -/
def rsNever : RSDecoder := ⟨fun _ => ([], -1)⟩

/-- A Reed-Solomon model that corrects exactly one word. -/
def rsOnly (w m : List ℕ) : RSDecoder := ⟨fun v => if v = w then (m, 0) else ([], -1)⟩

/-- The default configuration of `ec_978.py`: no `--f6b`, block-zero fixed
bits on, trailing-zero fixing on. -/
def cfgDefault : Config := ⟨false, true, true, []⟩

/-- Configuration after `--nobzfb` (no block-zero fixed bits). -/
def cfgNoBzfb : Config := ⟨false, false, true, []⟩

/-- Configuration after `--noftz` (no trailing-zero fixing). -/
def cfgNoFtz : Config := ⟨false, true, false, []⟩

/-- FIS-B samples for the hint-propagation scenario: on-time bit 0 of block
0 is `samples[1] = -1` and its late neighbour is `samples[2] = 4`, so block
0's word flips bit 0 exactly under the late-weighted shifts; every other
sample reads as 0. -/
def samplesC8 : List ℚ := [0, -1, 4]

/-- The packed word of block 0 of `samplesC8` under shift `-0.75` *with* the
block-zero fixed bits applied: bit 0 set (`0x80`) and the fixed bits 48 and
50 set (`0xA0` in byte 6). -/
def wordC8 : List ℕ := 128 :: 0 :: 0 :: 0 :: 0 :: 0 :: 160 :: List.replicate 85 0

/-- A Reed-Solomon model that corrects exactly `wordC8`, to a block-0
message with no empty inner frame (all `0xFF`). -/
def rsC8 : RSDecoder := ⟨fun w => if w = wordC8 then (List.replicate 72 255, 0) else ([], -1)⟩

/-- The spec's interface property of a Reed-Solomon decoder with `r` parity
symbols: a successful decode reports at most `r` corrected errors.
(The real `pyreedsolomon` decoder corrects at most `r/2` symbols.) -/
def RSWf (rs : RSDecoder) (r : ℤ) : Prop :=
  ∀ w, 0 ≤ (rs.decode w).2 → (rs.decode w).2 ≤ r

/-- Propositional form of `isValidErr`. -/
def ErrP (r e : ℤ) : Prop := (0 ≤ e ∧ e ≤ r) ∨ e = 98 ∨ e = 99

/-! ## Helper lemmas -/

/-- The fuel bound of `findEmptyFrameFuel` is irrelevant once it covers the
remaining bytes: the walk consumes at least one byte of window per step. -/
theorem findEmptyFrameFuel_congr (dataBytes : List ℕ) :
    ∀ f g p, dataBytes.length ≤ p + f → dataBytes.length ≤ p + g →
      findEmptyFrameFuel dataBytes f p = findEmptyFrameFuel dataBytes g p := by
  intro f
  induction f with
  | zero =>
    intro g p hf _
    cases g with
    | zero => rfl
    | succ g =>
      simp only [findEmptyFrameFuel]
      rw [if_pos (by omega)]
  | succ f ih =>
    intro g p hf hg
    cases g with
    | zero =>
      simp only [findEmptyFrameFuel]
      rw [if_pos (by omega)]
    | succ g =>
      simp only [findEmptyFrameFuel]
      by_cases hlen : dataBytes.length ≤ p + 1
      · rw [if_pos hlen, if_pos hlen]
      · rw [if_neg hlen, if_neg hlen]
        by_cases hz : uatFrameLenAt dataBytes p = 0
        · rw [if_pos hz, if_pos hz]
        · rw [if_neg hz, if_neg hz]
          exact ih g (p + uatFrameLenAt dataBytes p + 2) (by omega) (by omega)

/-- `findEmptyFrame` satisfies the recursion of the source's `while` loop. -/
theorem findEmptyFrame_eq (dataBytes : List ℕ) (p : ℕ) :
    findEmptyFrame dataBytes p =
      if dataBytes.length ≤ p + 1 then none
      else if uatFrameLenAt dataBytes p = 0 then some p
      else findEmptyFrame dataBytes (p + uatFrameLenAt dataBytes p + 2) := by
  unfold findEmptyFrame
  rw [findEmptyFrameFuel_congr dataBytes (dataBytes.length + 1 - p)
    (dataBytes.length + 1 - p + 1) p (by omega) (by omega)]
  simp only [findEmptyFrameFuel]
  by_cases hlen : dataBytes.length ≤ p + 1
  · rw [if_pos hlen, if_pos hlen]
  · rw [if_neg hlen, if_neg hlen]
    by_cases hz : uatFrameLenAt dataBytes p = 0
    · rw [if_pos hz, if_pos hz]
    · rw [if_neg hz, if_neg hz]
      exact findEmptyFrameFuel_congr dataBytes _ _ _ (by omega) (by omega)

theorem getD_set_self {α : Type} (l : List α) (i : ℕ) (a d : α)
    (h : i < l.length) : (l.set i a).getD i d = a := by
  simp [List.getD_eq_getElem?_getD, List.getElem?_set, h]

theorem getD_set_ne {α : Type} (l : List α) {i j : ℕ} (a d : α) (h : i ≠ j) :
    (l.set i a).getD j d = l.getD j d := by
  simp [List.getD_eq_getElem?_getD, List.getElem?_set, h]

/-- Pointwise description of the block-zero fixed-bit override. -/
theorem applyBlock0FixedBits_getD (bits : List ℚ) (n : ℕ) (h : n < bits.length) :
    (applyBlock0FixedBits bits).getD n 0 =
      if n = 48 ∨ n = 50 then 10000
      else if n = 49 ∨ n = 60 ∨ n = 61 ∨ n = 62 ∨ n = 63 ∨ n = 73 ∨ n = 74 ∨ n = 75
        then -10000
      else bits.getD n 0 := by
  unfold applyBlock0FixedBits
  by_cases h75 : n = 75
  · subst h75
    rw [if_neg (by omega), if_pos (by omega)]
    exact getD_set_self _ _ _ _ (by simpa using h)
  by_cases h74 : n = 74
  · subst h74
    rw [if_neg (by omega), if_pos (by omega)]
    rw [getD_set_ne _ _ _ (by omega)]
    exact getD_set_self _ _ _ _ (by simpa using h)
  by_cases h73 : n = 73
  · subst h73
    rw [if_neg (by omega), if_pos (by omega)]
    rw [getD_set_ne _ _ _ (by omega)]
    rw [getD_set_ne _ _ _ (by omega)]
    exact getD_set_self _ _ _ _ (by simpa using h)
  by_cases h63 : n = 63
  · subst h63
    rw [if_neg (by omega), if_pos (by omega)]
    rw [getD_set_ne _ _ _ (by omega)]
    rw [getD_set_ne _ _ _ (by omega)]
    rw [getD_set_ne _ _ _ (by omega)]
    exact getD_set_self _ _ _ _ (by simpa using h)
  by_cases h62 : n = 62
  · subst h62
    rw [if_neg (by omega), if_pos (by omega)]
    rw [getD_set_ne _ _ _ (by omega)]
    rw [getD_set_ne _ _ _ (by omega)]
    rw [getD_set_ne _ _ _ (by omega)]
    rw [getD_set_ne _ _ _ (by omega)]
    exact getD_set_self _ _ _ _ (by simpa using h)
  by_cases h61 : n = 61
  · subst h61
    rw [if_neg (by omega), if_pos (by omega)]
    rw [getD_set_ne _ _ _ (by omega)]
    rw [getD_set_ne _ _ _ (by omega)]
    rw [getD_set_ne _ _ _ (by omega)]
    rw [getD_set_ne _ _ _ (by omega)]
    rw [getD_set_ne _ _ _ (by omega)]
    exact getD_set_self _ _ _ _ (by simpa using h)
  by_cases h60 : n = 60
  · subst h60
    rw [if_neg (by omega), if_pos (by omega)]
    rw [getD_set_ne _ _ _ (by omega)]
    rw [getD_set_ne _ _ _ (by omega)]
    rw [getD_set_ne _ _ _ (by omega)]
    rw [getD_set_ne _ _ _ (by omega)]
    rw [getD_set_ne _ _ _ (by omega)]
    rw [getD_set_ne _ _ _ (by omega)]
    exact getD_set_self _ _ _ _ (by simpa using h)
  by_cases h50 : n = 50
  · subst h50
    rw [if_pos (by omega)]
    rw [getD_set_ne _ _ _ (by omega)]
    rw [getD_set_ne _ _ _ (by omega)]
    rw [getD_set_ne _ _ _ (by omega)]
    rw [getD_set_ne _ _ _ (by omega)]
    rw [getD_set_ne _ _ _ (by omega)]
    rw [getD_set_ne _ _ _ (by omega)]
    rw [getD_set_ne _ _ _ (by omega)]
    exact getD_set_self _ _ _ _ (by simpa using h)
  by_cases h49 : n = 49
  · subst h49
    rw [if_neg (by omega), if_pos (by omega)]
    rw [getD_set_ne _ _ _ (by omega)]
    rw [getD_set_ne _ _ _ (by omega)]
    rw [getD_set_ne _ _ _ (by omega)]
    rw [getD_set_ne _ _ _ (by omega)]
    rw [getD_set_ne _ _ _ (by omega)]
    rw [getD_set_ne _ _ _ (by omega)]
    rw [getD_set_ne _ _ _ (by omega)]
    rw [getD_set_ne _ _ _ (by omega)]
    exact getD_set_self _ _ _ _ (by simpa using h)
  by_cases h48 : n = 48
  · subst h48
    rw [if_pos (by omega)]
    rw [getD_set_ne _ _ _ (by omega)]
    rw [getD_set_ne _ _ _ (by omega)]
    rw [getD_set_ne _ _ _ (by omega)]
    rw [getD_set_ne _ _ _ (by omega)]
    rw [getD_set_ne _ _ _ (by omega)]
    rw [getD_set_ne _ _ _ (by omega)]
    rw [getD_set_ne _ _ _ (by omega)]
    rw [getD_set_ne _ _ _ (by omega)]
    rw [getD_set_ne _ _ _ (by omega)]
    exact getD_set_self _ _ _ _ (by simpa using h)
  rw [if_neg (by omega), if_neg (by omega)]
  rw [getD_set_ne _ _ _ (by omega)]
  rw [getD_set_ne _ _ _ (by omega)]
  rw [getD_set_ne _ _ _ (by omega)]
  rw [getD_set_ne _ _ _ (by omega)]
  rw [getD_set_ne _ _ _ (by omega)]
  rw [getD_set_ne _ _ _ (by omega)]
  rw [getD_set_ne _ _ _ (by omega)]
  rw [getD_set_ne _ _ _ (by omega)]
  rw [getD_set_ne _ _ _ (by omega)]
  rw [getD_set_ne _ _ _ (by omega)]

/-- Indexing the FIS-B deinterleave loop: element `8*j + k` of the extracted
words starting at pointer `p` is the sample at `p + 96*j + 2*k`. -/
theorem extractWords_getD :
    ∀ (n j k : ℕ) (s : List ℚ) (p : ℕ), j < n → k < 8 →
      (extractWords s p n).getD (8 * j + k) 0 = s.getD (p + 96 * j + 2 * k) 0 := by
  intro n
  induction n with
  | zero => intro j k s p hj; omega
  | succ n ih =>
    intro j k s p hj hk
    cases j with
    | zero =>
      show (List.map (fun m => s.getD (p + 2 * m) 0) (List.range 8) ++
        extractWords s (p + 96) n).getD (8 * 0 + k) 0 = _
      rw [show 8 * 0 + k = k by omega, List.getD_eq_getElem?_getD,
        List.getElem?_append_left (by simpa using hk),
        List.getElem?_map, List.getElem?_range hk]
      simp
    | succ j =>
      show (List.map (fun m => s.getD (p + 2 * m) 0) (List.range 8) ++
        extractWords s (p + 96) n).getD (8 * (j + 1) + k) 0 = _
      rw [List.getD_eq_getElem?_getD,
        List.getElem?_append_right (by simp; omega)]
      have hl : (List.map (fun m => s.getD (p + 2 * m) 0) (List.range 8)).length = 8 := by
        simp
      rw [hl]
      have hidx : 8 * (j + 1) + k - 8 = 8 * j + k := by omega
      rw [hidx, ← List.getD_eq_getElem?_getD, ih j k s (p + 96) (by omega) hk]
      congr 2
      ring

/-! ## Claim C7 -/

/-- C7: applied to a 736-sample FIS-B block-0 array, the fixed-bit override
sets exactly indices 48 and 50 to the positive sentinel `+10000`, exactly
indices 49, 60, 61, 62, 63, 73, 74 and 75 to the negative sentinel
`-10000`, and leaves every other index — index 47 in particular —
unchanged. -/
theorem block0FixedBits_override_exact (bits : List ℚ) (n : ℕ)
    (hlen : bits.length = 736) (hn : n < 736) :
    ((n = 48 ∨ n = 50) → (applyBlock0FixedBits bits).getD n 0 = 10000) ∧
    ((n = 49 ∨ n = 60 ∨ n = 61 ∨ n = 62 ∨ n = 63 ∨ n = 73 ∨ n = 74 ∨ n = 75) →
      (applyBlock0FixedBits bits).getD n 0 = -10000) ∧
    (¬(n = 48 ∨ n = 49 ∨ n = 50 ∨ n = 60 ∨ n = 61 ∨ n = 62 ∨ n = 63 ∨
        n = 73 ∨ n = 74 ∨ n = 75) →
      (applyBlock0FixedBits bits).getD n 0 = bits.getD n 0) := by
  have h : n < bits.length := by omega
  rw [applyBlock0FixedBits_getD bits n h]
  refine ⟨fun hmem => ?_, fun hmem => ?_, fun hmem => ?_⟩
  · rw [if_pos hmem]
  · rw [if_neg (by omega), if_pos (by omega)]
  · rw [if_neg (by omega), if_neg (by omega)]

/-- Witness for C7 at a concrete block: index 48 is forced positive while
index 47 keeps its extracted value. -/
theorem block0FixedBits_override_exact_witness :
    (applyBlock0FixedBits (List.replicate 736 (7 : ℚ))).getD 48 0 = 10000 ∧
    (applyBlock0FixedBits (List.replicate 736 (7 : ℚ))).getD 47 0 = 7 := by
  constructor
  · exact (block0FixedBits_override_exact (List.replicate 736 7) 48
      (by simp) (by omega)).1 (Or.inl rfl)
  · have h := (block0FixedBits_override_exact (List.replicate 736 7) 47
      (by simp) (by omega)).2.2 (by omega)
    rw [h]
    decide

/-! ## Claim C6 -/

/-- C6: deinterleaved on-time bit `k` of byte `j` of FIS-B block `i` is read
from the sample at index `offset + 2*(8*i + 48*j) + 2*k` — 16 consecutive
samples at stride 2 per byte, bytes of one block 96 samples apart. -/
theorem extractBlockBitsFisb_index (samples : List ℚ) (offset i j k : ℕ)
    (hj : j < 92) (hk : k < 8) :
    (extractBlockBitsFisb samples offset i).1.getD (8 * j + k) 0 =
      samples.getD (offset + 2 * (8 * i + 48 * j) + 2 * k) 0 := by
  show (extractWords samples (offset + 8 * i * 2) 92).getD (8 * j + k) 0 = _
  rw [extractWords_getD 92 j k samples (offset + 8 * i * 2) hj hk]
  congr 2
  ring

/-- Witness for C6: byte 0, bit 0 of block 1 at offset 1 reads sample 17. -/
theorem extractBlockBitsFisb_index_witness :
    (extractBlockBitsFisb ((List.range 600).map (fun n => (n : ℚ))) 1 1).1.getD 0 0 = 17 := by
  have h := extractBlockBitsFisb_index ((List.range 600).map (fun n => (n : ℚ)))
    1 1 0 0 (by omega) (by omega)
  simpa using h

/-! ## Claim C1 -/

/-- C1 (code bug): the claim — and the source's own comment — say the first
decode attempt is the short hypothesis exactly when the on-time samples at
indices 1, 3, 5, 7, 9 are all ≤ 0.  The code's loop does the opposite: with
all five samples ≤ 0 (a clean short packet) it computes `isShort = False`,
and with all five > 0 it computes `isShort = True`. -/
theorem adsbIsShortHint_inverted :
    (adsbIsShortHint [0, -1, 0, -1, 0, -1, 0, -1, 0, -1] = false ∧
      ([(0 : ℚ), -1, 0, -1, 0, -1, 0, -1, 0, -1].getD 1 0 ≤ 0 ∧
       [(0 : ℚ), -1, 0, -1, 0, -1, 0, -1, 0, -1].getD 3 0 ≤ 0 ∧
       [(0 : ℚ), -1, 0, -1, 0, -1, 0, -1, 0, -1].getD 5 0 ≤ 0 ∧
       [(0 : ℚ), -1, 0, -1, 0, -1, 0, -1, 0, -1].getD 7 0 ≤ 0 ∧
       [(0 : ℚ), -1, 0, -1, 0, -1, 0, -1, 0, -1].getD 9 0 ≤ 0)) ∧
    (adsbIsShortHint [0, 1, 0, 1, 0, 1, 0, 1, 0, 1] = true ∧
      ¬ [(0 : ℚ), 1, 0, 1, 0, 1, 0, 1, 0, 1].getD 1 0 ≤ 0) := by
  decide

/-! ## Claim C2 -/

/-- C2 (code bug): the trailing-zero repair never performs the quarter walk
the claim describes.  The call at `ec_978.py:684` passes four positional
arguments `(sample, aveOne, 128, 1.10)` to the three-parameter
`computePercentAboveAveOne(bits, aveOne, adjFactor)`, so the first loop
iteration raises `TypeError`.  Evaluated at a concrete failed block (736
samples of value 1) and at frame level: with `--nobzfb` and the default
`fix_trailing_zeros`, any FIS-B frame whose block 0 fails its initial
decode crashes in `fixZeros` instead of walking the quarters. -/
theorem fixZeros_raises_typeerror :
    fixZeros (List.replicate 736 (1 : ℚ)) =
      Except.error "TypeError: computePercentAboveAveOne() takes 3 positional arguments but 4 were given" ∧
    decodeFisb rsNever cfgNoBzfb [] 1 none none =
      Except.error "TypeError: computePercentAboveAveOne() takes 3 positional arguments but 4 were given" := by
  constructor
  · rfl
  · rfl

/-! ## Claim C9 -/

/-- C9: whenever `processAdsbPacket` reports a successful decode, the
short/long flag it returns is the initial first-five-samples hint
`adsbIsShortHint` — the flag is never updated, even when the successful
attempt used the opposite hypothesis. -/
theorem processAdsbPacket_flag_is_hint (rsS rsL : RSDecoder) (cfg : Config)
    (samples : List ℚ)
    (_hsucc : (processAdsbPacket rsS rsL cfg samples).1 = true) :
    (processAdsbPacket rsS rsL cfg samples).2.2 = adsbIsShortHint samples := by
  unfold processAdsbPacket
  dsimp only
  split_ifs <;> rfl

/-- Witness for C9: with empty samples the hint is long (`false`); the long
decoder fails every word, the short decoder corrects everything to a valid
short message, so the success comes from the *opposite* hypothesis — yet
the returned flag is still the hint `false`. -/
theorem processAdsbPacket_flag_is_hint_witness :
    (processAdsbPacket (rsAlways (List.replicate 18 0) 0) rsNever cfgDefault []).1 = true ∧
    (processAdsbPacket (rsAlways (List.replicate 18 0) 0) rsNever cfgDefault []).2.2 = false ∧
    adsbIsShortHint [] = false ∧
    (decodeAdsb (rsAlways (List.replicate 18 0) 0) rsNever cfgDefault [] 1 false).1 = false := by
  refine ⟨by decide, ?_, by decide, by decide⟩
  rw [processAdsbPacket_flag_is_hint (rsAlways (List.replicate 18 0) 0) rsNever
    cfgDefault [] (by decide)]
  decide

/-! ## Claim C4 -/

/-- C4: an ADS-B decode attempt is accepted exactly when the Reed-Solomon
stage succeeded and the corrected message passes the payload-type/length
check (payload type code 0 with 36 hex characters, or 1..6 with 68); a
Reed-Solomon success that violates the check is returned as the failure
`(False, None, 98)`, and `processAdsbPacket` then proceeds with the
remaining offset/hypothesis attempts. -/
theorem decodeAdsb_accept_iff (rsS rsL : RSDecoder) (cfg : Config)
    (samples : List ℚ) (offset : ℕ) (isShort : Bool) :
    ((decodeAdsb rsS rsL cfg samples offset isShort).1 = true ↔
      ((adsbAttempt rsS rsL cfg samples offset isShort).status = true ∧
        adsbPayloadValid (adsbAttempt rsS rsL cfg samples offset isShort).hex = true)) ∧
    ((adsbAttempt rsS rsL cfg samples offset isShort).status = true →
      adsbPayloadValid (adsbAttempt rsS rsL cfg samples offset isShort).hex = false →
      decodeAdsb rsS rsL cfg samples offset isShort = (false, none, 98)) ∧
    ((decodeAdsb rsS rsL cfg samples 1 (adsbIsShortHint samples)).1 = false →
      processAdsbPacket rsS rsL cfg samples =
        (let isShort0 := adsbIsShortHint samples
         let a2 := decodeAdsb rsS rsL cfg samples 1 (!isShort0)
         if a2.1 then (true, some (a2.2.1, a2.2.2), isShort0)
         else
           let a3 := decodeAdsb rsS rsL cfg samples 2 (!isShort0)
           if a3.1 then (true, some (a3.2.1, a3.2.2), isShort0)
           else
             let a4 := decodeAdsb rsS rsL cfg samples 2 isShort0
             if a4.1 then (true, some (a4.2.1, a4.2.2), isShort0)
             else (false, none, isShort0))) := by
  refine ⟨?_, ?_, ?_⟩
  · unfold decodeAdsb decodeAdsbValidate
    cases hst : (adsbAttempt rsS rsL cfg samples offset isShort).status
    · simp [hst]
    · cases hhex : (adsbAttempt rsS rsL cfg samples offset isShort).hex with
      | none => simp [hst, hhex, adsbPayloadValid]
      | some m =>
        simp only [hst, hhex, if_true, adsbPayloadValid, decide_eq_true_eq]
        split_ifs with h1 h2
        · exact iff_of_true rfl ⟨trivial, Or.inl h1⟩
        · exact iff_of_true rfl ⟨trivial, Or.inr ⟨by omega, by omega, h2.2.2⟩⟩
        · refine iff_of_false (by simp) ?_
          rintro ⟨-, h | h⟩
          · exact h1 h
          · exact h2 ⟨by omega, by omega, h.2.2⟩
  · intro hst hval
    unfold decodeAdsb decodeAdsbValidate
    cases hhex : (adsbAttempt rsS rsL cfg samples offset isShort).hex with
    | none => simp [hst, hhex]
    | some m =>
      rw [hhex] at hval
      unfold adsbPayloadValid at hval
      simp only [decide_eq_true_eq, decide_eq_false_iff_not, not_or] at hval
      simp only [hst, hhex, if_true]
      rw [if_neg (fun h => hval.1 h), if_neg (fun h => hval.2 ⟨by omega, by omega, h.2.2⟩)]
  · intro hfail
    unfold processAdsbPacket
    rw [if_neg (by simp [hfail])]

/-- Witness for C4 at a concrete attempt: the short decoder "corrects"
every word to a message with payload type code 31, an RS success that
violates the validation, and `decodeAdsb` returns the failure
`(False, None, 98)`. -/
theorem decodeAdsb_accept_iff_witness :
    (adsbAttempt (rsAlways (255 :: List.replicate 17 0) 0) rsNever cfgDefault
        [] 1 true).status = true ∧
    adsbPayloadValid (adsbAttempt (rsAlways (255 :: List.replicate 17 0) 0)
        rsNever cfgDefault [] 1 true).hex = false ∧
    decodeAdsb (rsAlways (255 :: List.replicate 17 0) 0) rsNever cfgDefault
        [] 1 true = (false, none, 98) := by
  refine ⟨by decide, by decide, ?_⟩
  exact (decodeAdsb_accept_iff (rsAlways (255 :: List.replicate 17 0) 0)
    rsNever cfgDefault [] 1 true).2.1 (by decide) (by decide)

/-! ## Claim C3 -/

theorem findEmptyFrameFuel_some (dataBytes : List ℕ) :
    ∀ fuel p q, findEmptyFrameFuel dataBytes fuel p = some q →
      uatFrameLenAt dataBytes q = 0 ∧ q + 1 < dataBytes.length := by
  intro fuel
  induction fuel with
  | zero => intro p q h; cases h
  | succ fuel ih =>
    intro p q h
    simp only [findEmptyFrameFuel] at h
    by_cases hlen : dataBytes.length ≤ p + 1
    · rw [if_pos hlen] at h; cases h
    · rw [if_neg hlen] at h
      by_cases hz : uatFrameLenAt dataBytes p = 0
      · rw [if_pos hz] at h
        obtain rfl : p = q := by injection h
        exact ⟨hz, by omega⟩
      · rw [if_neg hz] at h
        exact ih _ q h

/-- A position returned by the frame walk carries a zero inner-frame length
and lies inside the gathered bytes. -/
theorem findEmptyFrame_some (dataBytes : List ℕ) (p q : ℕ)
    (h : findEmptyFrame dataBytes p = some q) :
    uatFrameLenAt dataBytes q = 0 ∧ q + 1 < dataBytes.length :=
  findEmptyFrameFuel_some dataBytes _ p q h

theorem foldl_set_range'_getD (v : List ℕ) :
    ∀ (n s : ℕ) (hb : List (Option (List ℕ))) (i : ℕ), s + n ≤ hb.length →
      ((List.range' s n).foldl (fun hb j => hb.set j (some v)) hb).getD i none =
        if s ≤ i ∧ i < s + n then some v else hb.getD i none := by
  intro n
  induction n with
  | zero =>
    intro s hb i _
    rw [if_neg (by omega)]
    rfl
  | succ n ih =>
    intro s hb i hsn
    rw [List.range'_succ]
    show ((List.range' (s + 1) n).foldl (fun hb j => hb.set j (some v))
      (hb.set s (some v))).getD i none = _
    rw [ih (s + 1) (hb.set s (some v)) i (by simp; omega)]
    by_cases h1 : s + 1 ≤ i ∧ i < s + 1 + n
    · rw [if_pos h1, if_pos (by omega)]
    · rw [if_neg h1]
      by_cases h2 : i = s
      · subst h2
        rw [if_pos (by omega)]
        exact getD_set_self hb i (some v) none (by omega)
      · rw [if_neg (by omega)]
        exact getD_set_ne hb (some v) none (fun hc => h2 hc.symm)

/-- Pointwise description of the zero-fill of `block0ThoroughCheck`. -/
theorem fillZeroBlocks_getD (hb : List (Option (List ℕ))) (c i : ℕ)
    (hlen : hb.length = 6) (hi : i < 6) :
    (fillZeroBlocks hb c).getD i none =
      if c + 1 ≤ i then some (List.replicate 72 0) else hb.getD i none := by
  unfold fillZeroBlocks
  by_cases hc : c + 1 ≤ 6
  · rw [foldl_set_range'_getD (List.replicate 72 0) (6 - (c + 1)) (c + 1) hb i (by omega)]
    by_cases h : c + 1 ≤ i
    · rw [if_pos ⟨h, by omega⟩, if_pos h]
    · rw [if_neg (by omega), if_neg h]
  · rw [show 6 - (c + 1) = 0 by omega, if_neg (by omega)]
    rfl

/-- C3: with block 0 decoded, the early-terminate check walks the inner
frames of the gathered consecutive blocks starting at byte 8.  If it meets
an inner-frame length 0 at byte pointer `p`, it returns success with every
block after `(p+1)/72` replaced by 72 zero bytes and the earlier blocks
unchanged; if the walk runs past the available bytes without meeting a zero
length, it returns failure with `hex_blocks` untouched. -/
theorem block0ThoroughCheck_spec (hexBlocks : List (Option (List ℕ)))
    (b0 : List ℕ) (hlen : hexBlocks.length = 6)
    (h0 : hexBlocks.getD 0 none = some b0) :
    (∀ p, findEmptyFrame (b0 ++ gatherConsecutive ((hexBlocks.drop 1).take 4)) 8 =
        some p →
      uatFrameLenAt (b0 ++ gatherConsecutive ((hexBlocks.drop 1).take 4)) p = 0 ∧
      block0ThoroughCheck hexBlocks = (true, fillZeroBlocks hexBlocks ((p + 1) / 72)) ∧
      (∀ i, i < 6 →
        (fillZeroBlocks hexBlocks ((p + 1) / 72)).getD i none =
          if (p + 1) / 72 + 1 ≤ i then some (List.replicate 72 0)
          else hexBlocks.getD i none)) ∧
    (findEmptyFrame (b0 ++ gatherConsecutive ((hexBlocks.drop 1).take 4)) 8 = none →
      block0ThoroughCheck hexBlocks = (false, hexBlocks)) := by
  constructor
  · intro p hp
    refine ⟨(findEmptyFrame_some _ 8 p hp).1, ?_, ?_⟩
    · unfold block0ThoroughCheck
      rw [h0]
      dsimp only
      rw [hp]
    · intro i hi
      exact fillZeroBlocks_getD hexBlocks ((p + 1) / 72) i hlen hi
  · intro hnone
    unfold block0ThoroughCheck
    rw [h0]
    dsimp only
    rw [hnone]

/-- Witness for C3: an empty Ground-Uplink frame (block 0 all zero) hits
the terminator at byte pointer 8, and blocks 1..5 are filled with 72 zero
bytes. -/
theorem block0ThoroughCheck_spec_witness :
    block0ThoroughCheck (some (List.replicate 72 0) :: List.replicate 5 none) =
      (true, fillZeroBlocks (some (List.replicate 72 0) :: List.replicate 5 none) 0) ∧
    (fillZeroBlocks (some (List.replicate 72 0) :: List.replicate 5 none) 1).getD
      3 none = some (List.replicate 72 0) := by
  constructor
  · have h := ((block0ThoroughCheck_spec
      (some (List.replicate 72 0) :: List.replicate 5 none) (List.replicate 72 0)
      (by decide) (by decide)).1 8 (by decide)).2.1
    simpa using h
  · have h := fillZeroBlocks_getD (some (List.replicate 72 0) :: List.replicate 5 none)
      1 3 (by decide) (by decide)
    rw [h]
    decide

/-! ## Claim C10 -/

/-- A sweep whose shift list does not contain 0 never writes to the
caller's `bits` array: only the shift-0 iteration aliases it. -/
theorem sweepShifts_bits_of_no_zero (rs : RSDecoder) (cfg : Config)
    (bitsBefore bitsAfter : List ℚ) (tryFirst : ℚ) (f6b b0fb : Bool) :
    ∀ (shifts : List ℚ) (bitsState : List ℚ), (0 : ℚ) ∉ shifts →
      (sweepShifts rs cfg bitsBefore bitsAfter tryFirst f6b b0fb bitsState
        shifts).bits = bitsState := by
  intro shifts
  induction shifts with
  | nil => intro bitsState _; rfl
  | cons shift rest ih =>
    intro bitsState hmem
    have hz : shift ≠ 0 := fun h => hmem (h ▸ List.mem_cons_self shift rest)
    have hrest : (0 : ℚ) ∉ rest := fun h => hmem (List.mem_cons_of_mem shift h)
    unfold sweepShifts
    by_cases ht : shift = tryFirst
    · rw [if_pos ht]
      exact ih bitsState hrest
    · rw [if_neg ht]
      dsimp only
      rw [if_neg hz, if_neg (show ¬(shift = 0 ∧ b0fb = true) from by simp [hz])]
      split <;> split <;>
        first
          | rfl
          | exact ih bitsState hrest
          | (split <;> first | rfl | exact ih bitsState hrest)

/-- The first sweep iteration is shift 0; with `block0FixedBits` on it
aliases and mutates the caller's array, and later iterations leave that
state alone. -/
theorem sweepShifts_bits_zero_head (rs : RSDecoder) (cfg : Config)
    (bitsBefore bitsAfter : List ℚ) (tryFirst : ℚ) (f6b : Bool)
    (rest : List ℚ) (bitsState : List ℚ) (ht : tryFirst ≠ 0)
    (hrest : (0 : ℚ) ∉ rest) :
    (sweepShifts rs cfg bitsBefore bitsAfter tryFirst f6b true bitsState
      (0 :: rest)).bits = applyBlock0FixedBits bitsState := by
  unfold sweepShifts
  rw [if_neg (fun h => ht h.symm)]
  dsimp only
  rw [if_pos (show (0 : ℚ) = 0 from rfl)]
  rw [if_pos (show true = true from rfl)]
  rw [if_pos (show (0 : ℚ) = 0 ∧ true = true from ⟨rfl, rfl⟩)]
  split
  · rfl
  · exact sweepShifts_bits_of_no_zero rs cfg bitsBefore bitsAfter tryFirst f6b
      true rest (applyBlock0FixedBits bitsState) hrest

/-- With no hint and `block0FixedBits` on, `tryShiftBits` leaves the
caller's `bits` array as `applyBlock0FixedBits bits`. -/
theorem tryShiftBits_bits_mutated (rs : RSDecoder) (cfg : Config)
    (bits bitsBefore bitsAfter : List ℚ) (f6b : Bool) :
    (tryShiftBits rs cfg bits bitsBefore bitsAfter (-1) f6b true).bits =
      applyBlock0FixedBits bits := by
  unfold tryShiftBits
  rw [if_neg (by simp)]
  have h0 : SHIFT_BY_PROBABILITY = (0 : ℚ) :: SHIFT_BY_PROBABILITY.tail := by
    decide
  rw [h0]
  exact sweepShifts_bits_zero_head rs cfg bitsBefore bitsAfter (-1) f6b _ bits
    (by norm_num) (by decide)

/-- The `bits` state returned by `blockZeroTricks` is the one left by its
`tryShiftBits` call, whether or not the retry succeeded. -/
theorem blockZeroTricks_bits (rs : RSDecoder) (cfg : Config)
    (bits bitsBefore bitsAfter : List ℚ) (hexBlocks : List (Option (List ℕ))) :
    (blockZeroTricks rs cfg bits bitsBefore bitsAfter hexBlocks).bits =
      (tryShiftBits rs cfg bits bitsBefore bitsAfter (-1) cfg.replace_f6b
        cfg.block_zero_fixed_bits).bits := by
  unfold blockZeroTricks
  dsimp only
  split <;> rfl

/-- C10: with `block_zero_fixed_bits` enabled, the shift-0 attempt inside
`tryShiftBits` aliases the caller's `bits` array and writes the ±10000
sentinels into it in place, so after an unsuccessful `blockZeroTricks` call
the bits array that `decodeFisb` passes on to the trailing-zero repair is
`applyBlock0FixedBits bits`: indices 48 and 50 hold `+10000`, indices
49, 60, 61, 62, 63, 73, 74 and 75 hold `-10000`, and every other index its
originally extracted sample. -/
theorem blockZeroTricks_mutates_bits (rs : RSDecoder) (cfg : Config)
    (bits bitsBefore bitsAfter : List ℚ) (hexBlocks : List (Option (List ℕ)))
    (hbz : cfg.block_zero_fixed_bits = true) (hlen : bits.length = 736)
    (_hfail : (blockZeroTricks rs cfg bits bitsBefore bitsAfter hexBlocks).status
      = false) :
    (blockZeroTricks rs cfg bits bitsBefore bitsAfter hexBlocks).bits =
      applyBlock0FixedBits bits ∧
    (∀ n, (n = 48 ∨ n = 50) →
      (blockZeroTricks rs cfg bits bitsBefore bitsAfter hexBlocks).bits.getD n 0
        = 10000) ∧
    (∀ n, (n = 49 ∨ n = 60 ∨ n = 61 ∨ n = 62 ∨ n = 63 ∨ n = 73 ∨ n = 74 ∨ n = 75) →
      (blockZeroTricks rs cfg bits bitsBefore bitsAfter hexBlocks).bits.getD n 0
        = -10000) ∧
    (∀ n, n < 736 →
      ¬(n = 48 ∨ n = 49 ∨ n = 50 ∨ n = 60 ∨ n = 61 ∨ n = 62 ∨ n = 63 ∨
        n = 73 ∨ n = 74 ∨ n = 75) →
      (blockZeroTricks rs cfg bits bitsBefore bitsAfter hexBlocks).bits.getD n 0
        = bits.getD n 0) := by
  have hb : (blockZeroTricks rs cfg bits bitsBefore bitsAfter hexBlocks).bits =
      applyBlock0FixedBits bits := by
    rw [blockZeroTricks_bits, hbz, tryShiftBits_bits_mutated]
  refine ⟨hb, ?_, ?_, ?_⟩
  · intro n hn
    rw [hb, applyBlock0FixedBits_getD bits n (by omega), if_pos hn]
  · intro n hn
    rw [hb, applyBlock0FixedBits_getD bits n (by omega), if_neg (by omega),
      if_pos hn]
  · intro n hn hn'
    rw [hb, applyBlock0FixedBits_getD bits n (by omega), if_neg (by omega),
      if_neg (by omega)]

/-- Witness for C10: a failing block-zero tricks run on the all-zero
extracted block leaves the sentinels in the caller's array (index 48 holds
`+10000`, index 49 holds `-10000`) while index 0 keeps its extracted 0. -/
theorem blockZeroTricks_mutates_bits_witness :
    (blockZeroTricks rsNever cfgDefault (extractBlockBitsFisb [] 1 0).1
      (extractBlockBitsFisb [] 1 0).2.1 (extractBlockBitsFisb [] 1 0).2.2
      (List.replicate 6 none)).status = false ∧
    (blockZeroTricks rsNever cfgDefault (extractBlockBitsFisb [] 1 0).1
      (extractBlockBitsFisb [] 1 0).2.1 (extractBlockBitsFisb [] 1 0).2.2
      (List.replicate 6 none)).bits.getD 48 0 = 10000 ∧
    (blockZeroTricks rsNever cfgDefault (extractBlockBitsFisb [] 1 0).1
      (extractBlockBitsFisb [] 1 0).2.1 (extractBlockBitsFisb [] 1 0).2.2
      (List.replicate 6 none)).bits.getD 49 0 = -10000 ∧
    (blockZeroTricks rsNever cfgDefault (extractBlockBitsFisb [] 1 0).1
      (extractBlockBitsFisb [] 1 0).2.1 (extractBlockBitsFisb [] 1 0).2.2
      (List.replicate 6 none)).bits.getD 0 0 = 0 := by
  have hst : (blockZeroTricks rsNever cfgDefault (extractBlockBitsFisb [] 1 0).1
      (extractBlockBitsFisb [] 1 0).2.1 (extractBlockBitsFisb [] 1 0).2.2
      (List.replicate 6 none)).status = false := by decide
  have h := blockZeroTricks_mutates_bits rsNever cfgDefault
    (extractBlockBitsFisb [] 1 0).1 (extractBlockBitsFisb [] 1 0).2.1
    (extractBlockBitsFisb [] 1 0).2.2 (List.replicate 6 none) rfl (by decide) hst
  refine ⟨hst, h.2.1 48 (Or.inl rfl), h.2.2.1 49 (Or.inl rfl), ?_⟩
  rw [h.2.2.2 0 (by omega) (by omega)]
  decide

/-! ## Claim C5 -/

theorem f6bLoop_errs (rs : RSDecoder) (r : ℤ) (hwf : RSWf rs r) (byts : List ℕ) :
    ∀ cands, 0 ≤ (f6bLoop rs byts cands).2 → (f6bLoop rs byts cands).2 ≤ r := by
  intro cands
  induction cands with
  | nil => intro h; simp [f6bLoop] at h
  | cons c rest ih =>
    unfold f6bLoop
    dsimp only
    split
    · intro _; exact hwf _ (by assumption)
    · exact ih

theorem packAndTest_errs (rs : RSDecoder) (r : ℤ) (hwf : RSWf rs r)
    (cfg : Config) (bits : List ℚ) (f6b : Bool) :
    0 ≤ (packAndTest rs cfg bits f6b).2 → (packAndTest rs cfg bits f6b).2 ≤ r := by
  unfold packAndTest
  dsimp only
  split
  · split
    · intro _; exact hwf _ (by assumption)
    · intro h; exact hwf _ h
  · exact f6bLoop_errs rs r hwf _ cfg.f6bArray

/-- A sweep either succeeds with an error count in `[0, r]` or fails with
the sentinel 98. -/
theorem sweepShifts_errs (rs : RSDecoder) (r : ℤ) (hwf : RSWf rs r)
    (cfg : Config) (bitsBefore bitsAfter : List ℚ) (tryFirst : ℚ)
    (f6b b0fb : Bool) :
    ∀ (shifts : List ℚ) (bitsState : List ℚ),
      (let sw := sweepShifts rs cfg bitsBefore bitsAfter tryFirst f6b b0fb
        bitsState shifts
       (sw.status = true ∧ 0 ≤ sw.errs ∧ sw.errs ≤ r) ∨
         (sw.status = false ∧ sw.errs = 98)) := by
  intro shifts
  induction shifts with
  | nil => intro bitsState; exact Or.inr ⟨rfl, rfl⟩
  | cons shift rest ih =>
    intro bitsState
    unfold sweepShifts
    dsimp only
    by_cases hskip : shift = tryFirst
    · rw [if_pos hskip]
      exact ih bitsState
    · rw [if_neg hskip]
      by_cases hc : 0 ≤ (packAndTest rs cfg
          (if b0fb = true then
            applyBlock0FixedBits (if shift = 0 then bitsState
              else if 0 < shift then shiftBits bitsState bitsBefore shift
              else shiftBits bitsState bitsAfter (-shift))
          else if shift = 0 then bitsState
              else if 0 < shift then shiftBits bitsState bitsBefore shift
              else shiftBits bitsState bitsAfter (-shift)) f6b).2
      · rw [if_pos hc]
        exact Or.inl ⟨rfl, hc, packAndTest_errs rs r hwf cfg _ f6b hc⟩
      · rw [if_neg hc]
        exact ih _

/-- `tryShiftBits` either succeeds with an error count in `[0, r]` or fails
with the sentinel 98; in particular the internal `-74` of the known-prefix
loop never escapes. -/
theorem tryShiftBits_errs (rs : RSDecoder) (r : ℤ) (hwf : RSWf rs r)
    (cfg : Config) (bits bitsBefore bitsAfter : List ℚ) (tryFirst : ℚ)
    (f6b b0fb : Bool) :
    (let t := tryShiftBits rs cfg bits bitsBefore bitsAfter tryFirst f6b b0fb
     (t.status = true ∧ 0 ≤ t.errs ∧ t.errs ≤ r) ∨
       (t.status = false ∧ t.errs = 98)) := by
  unfold tryShiftBits
  by_cases htf : tryFirst ≠ -1
  · rw [if_pos htf]
    by_cases hc : 0 ≤ (packAndTest rs cfg
        (if tryFirst = 0 then bits
         else if 0 < tryFirst then shiftBits bits bitsBefore tryFirst
         else shiftBits bits bitsAfter (-tryFirst)) f6b).2
    · rw [if_pos hc]
      exact Or.inl ⟨rfl, hc, packAndTest_errs rs r hwf cfg _ f6b hc⟩
    · rw [if_neg hc]
      exact sweepShifts_errs rs r hwf cfg bitsBefore bitsAfter tryFirst f6b b0fb
        SHIFT_BY_PROBABILITY bits
  · rw [if_neg htf]
    exact sweepShifts_errs rs r hwf cfg bitsBefore bitsAfter tryFirst f6b b0fb
      SHIFT_BY_PROBABILITY bits

theorem blockZeroTricks_errs (rs : RSDecoder) (r : ℤ) (hwf : RSWf rs r)
    (cfg : Config) (bits bitsBefore bitsAfter : List ℚ)
    (hexBlocks : List (Option (List ℕ))) :
    ErrP r (blockZeroTricks rs cfg bits bitsBefore bitsAfter hexBlocks).errs := by
  unfold blockZeroTricks
  dsimp only
  have h := tryShiftBits_errs rs r hwf cfg bits bitsBefore bitsAfter (-1)
    cfg.replace_f6b cfg.block_zero_fixed_bits
  split
  · rename_i hstat
    rcases h with ⟨_, h1, h2⟩ | ⟨hf, _⟩
    · exact Or.inl ⟨h1, h2⟩
    · rw [hstat] at hf; cases hf
  · exact Or.inr (Or.inl rfl)

theorem ErrP_set {r : ℤ} {he : List ℤ} {v : ℤ} {b : ℕ}
    (hP : ∀ e ∈ he, ErrP r e) (hv : ErrP r v) : ∀ e ∈ he.set b v, ErrP r e :=
  fun e hm => (List.mem_or_eq_of_mem_set hm).elim (hP e) (fun h => h ▸ hv)

theorem decodeFisbAfterLoop_errs (hexBlocks : List (Option (List ℕ)))
    (hexErrs : List ℤ) : (decodeFisbAfterLoop hexBlocks hexErrs).2.2 = hexErrs := by
  unfold decodeFisbAfterLoop
  split <;> rfl

theorem decodeFisbFtz_errs (rs : RSDecoder) (r : ℤ) (hwf : RSWf rs r)
    (cfg : Config) (block : ℕ) (hexBlocks : List (Option (List ℕ)))
    (hexErrs : List ℤ) (stw : ℚ) (tr : List TraceEntry)
    (bits bitsBefore bitsAfter : List ℚ)
    (hP : ∀ e ∈ hexErrs, ErrP r e) :
    (∀ tr' s hb' he', decodeFisbFtz rs cfg block hexBlocks hexErrs stw tr bits
        bitsBefore bitsAfter = Sum.inl (tr', Except.ok (s, hb', he')) →
      ∀ e ∈ he', ErrP r e) ∧
    (∀ hb' he' tr', decodeFisbFtz rs cfg block hexBlocks hexErrs stw tr bits
        bitsBefore bitsAfter = Sum.inr (hb', he', tr') →
      ∀ e ∈ he', ErrP r e) := by
  have herr : ∀ bits2 : List ℚ, ErrP r (tryShiftBits rs cfg bits2 bitsBefore
      bitsAfter stw false false).errs := by
    intro bits2
    rcases tryShiftBits_errs rs r hwf cfg bits2 bitsBefore bitsAfter stw
      false false with ⟨_, h1, h2⟩ | ⟨_, h2⟩
    · exact Or.inl ⟨h1, h2⟩
    · exact Or.inr (Or.inl h2)
  constructor
  · intro tr' s hb' he' heq
    unfold decodeFisbFtz at heq
    by_cases hftz : cfg.fix_trailing_zeros = true
    · rw [if_pos hftz] at heq
      rcases hfz : fixZeros bits with e | ⟨found, bits2⟩ <;> rw [hfz] at heq
      · simp only [Sum.inl.injEq, Prod.mk.injEq] at heq
        cases heq.2
      · dsimp only at heq
        cases found with
        | false =>
          rw [if_neg (by simp)] at heq
          simp only [Sum.inl.injEq, Prod.mk.injEq, Except.ok.injEq] at heq
          have h3 := congrArg (fun t : Bool × List (Option (List ℕ)) × List ℤ
            => t.2.2) heq.2
          simp only [decodeFisbAfterLoop_errs] at h3
          exact h3 ▸ hP
        | true =>
          rw [if_pos rfl] at heq
          by_cases hst2 : (tryShiftBits rs cfg bits2 bitsBefore bitsAfter stw
              false false).status = true
          · rw [if_pos hst2] at heq
            by_cases htc : (block0ThoroughCheck (hexBlocks.set block
                (tryShiftBits rs cfg bits2 bitsBefore bitsAfter stw
                  false false).hex)).1 = true
            · rw [if_pos htc] at heq
              simp only [Sum.inl.injEq, Prod.mk.injEq, Except.ok.injEq] at heq
              exact heq.2.2.2 ▸ ErrP_set hP (herr bits2)
            · rw [if_neg htc] at heq
              cases heq
          · rw [if_neg hst2] at heq
            simp only [Sum.inl.injEq, Prod.mk.injEq, Except.ok.injEq] at heq
            have h3 := congrArg (fun t : Bool × List (Option (List ℕ)) × List ℤ
              => t.2.2) heq.2
            simp only [decodeFisbAfterLoop_errs] at h3
            exact h3 ▸ ErrP_set hP (herr bits2)
    · rw [if_neg hftz] at heq
      simp only [Sum.inl.injEq, Prod.mk.injEq, Except.ok.injEq] at heq
      have h3 := congrArg (fun t : Bool × List (Option (List ℕ)) × List ℤ
        => t.2.2) heq.2
      simp only [decodeFisbAfterLoop_errs] at h3
      exact h3 ▸ hP
  · intro hb' he' tr' heq
    unfold decodeFisbFtz at heq
    by_cases hftz : cfg.fix_trailing_zeros = true
    · rw [if_pos hftz] at heq
      rcases hfz : fixZeros bits with e | ⟨found, bits2⟩ <;> rw [hfz] at heq
      · cases heq
      · dsimp only at heq
        cases found with
        | false => rw [if_neg (by simp)] at heq; cases heq
        | true =>
          rw [if_pos rfl] at heq
          by_cases hst2 : (tryShiftBits rs cfg bits2 bitsBefore bitsAfter stw
              false false).status = true
          · rw [if_pos hst2] at heq
            by_cases htc : (block0ThoroughCheck (hexBlocks.set block
                (tryShiftBits rs cfg bits2 bitsBefore bitsAfter stw
                  false false).hex)).1 = true
            · rw [if_pos htc] at heq
              cases heq
            · rw [if_neg htc] at heq
              simp only [Sum.inr.injEq, Prod.mk.injEq] at heq
              have h3 : hexErrs.set block (tryShiftBits rs cfg bits2 bitsBefore
                  bitsAfter stw false false).errs = he' := heq.2.1
              exact h3 ▸ ErrP_set hP (herr bits2)
          · rw [if_neg hst2] at heq
            cases heq
    · rw [if_neg hftz] at heq
      cases heq

/-- Invariant of the `decodeFisb` block loop: if every incoming error count
is legal, every error count in a normally returned `hexErrs` is legal. -/
theorem decodeFisbLoop_errs (rs : RSDecoder) (r : ℤ) (hwf : RSWf rs r)
    (cfg : Config) (samples : List ℚ) (offset : ℕ) :
    ∀ (blocks : List ℕ) (hb : List (Option (List ℕ))) (he : List ℤ) (stw : ℚ)
      (tr : List TraceEntry), (∀ e ∈ he, ErrP r e) →
      ∀ tr' s hb' he',
        decodeFisbLoop rs cfg samples offset blocks hb he stw tr =
          (tr', Except.ok (s, hb', he')) →
        ∀ e ∈ he', ErrP r e := by
  intro blocks
  induction blocks with
  | nil =>
    intro hb he stw tr hP tr' s hb' he' heq
    unfold decodeFisbLoop at heq
    simp only [Prod.mk.injEq, Except.ok.injEq] at heq
    have h3 := congrArg (fun t : Bool × List (Option (List ℕ)) × List ℤ
      => t.2.2) heq.2
    simp only [decodeFisbAfterLoop_errs] at h3
    exact h3 ▸ hP
  | cons block rest ih =>
    intro hb he stw tr hP tr' s hb' he' heq
    unfold decodeFisbLoop at heq
    have herr : ∀ bits2 : List ℚ, ErrP r (tryShiftBits rs cfg bits2
        (extractBlockBitsFisb samples offset block).2.1
        (extractBlockBitsFisb samples offset block).2.2 stw false false).errs := by
      intro bits2
      rcases tryShiftBits_errs rs r hwf cfg bits2
        (extractBlockBitsFisb samples offset block).2.1
        (extractBlockBitsFisb samples offset block).2.2 stw false false with
        ⟨_, h1, h2⟩ | ⟨_, h2⟩
      · exact Or.inl ⟨h1, h2⟩
      · exact Or.inr (Or.inl h2)
    by_cases hskip : (hb.getD block none).isSome = true
    · rw [if_pos hskip] at heq
      exact ih hb he stw tr hP tr' s hb' he' heq
    · rw [if_neg hskip] at heq
      dsimp only at heq
      set t := tryShiftBits rs cfg (extractBlockBitsFisb samples offset block).1
        (extractBlockBitsFisb samples offset block).2.1
        (extractBlockBitsFisb samples offset block).2.2 stw false false with ht
      have hP1 : ∀ e ∈ he.set block t.errs, ErrP r e :=
        ErrP_set hP (herr (extractBlockBitsFisb samples offset block).1)
      by_cases hst : t.status = true
      · rw [if_pos hst] at heq
        by_cases hb0 : block = 0
        · rw [if_pos hb0] at heq
          by_cases htc : (block0ThoroughCheck (hb.set block t.hex)).1 = true
          · rw [if_pos htc] at heq
            simp only [Prod.mk.injEq, Except.ok.injEq] at heq
            exact heq.2.2.2 ▸ hP1
          · rw [if_neg htc] at heq
            exact ih _ _ _ _ hP1 tr' s hb' he' heq
        · rw [if_neg hb0] at heq
          exact ih _ _ _ _ hP1 tr' s hb' he' heq
      · rw [if_neg hst] at heq
        by_cases hbz : block = 0 ∧ (cfg.replace_f6b = true ∨
            cfg.block_zero_fixed_bits = true)
        · rw [if_pos hbz] at heq
          dsimp only at heq
          set t2 := blockZeroTricks rs cfg
            (extractBlockBitsFisb samples offset block).1
            (extractBlockBitsFisb samples offset block).2.1
            (extractBlockBitsFisb samples offset block).2.2 hb with ht2
          have hP2 : ∀ e ∈ (he.set block t.errs).set block t2.errs, ErrP r e :=
            ErrP_set hP1 (blockZeroTricks_errs rs r hwf cfg _ _ _ hb)
          by_cases hst2 : t2.status = true
          · rw [if_pos hst2] at heq
            by_cases htc2 : (block0ThoroughCheck t2.hexBlocks).1 = true
            · rw [if_pos htc2] at heq
              simp only [Prod.mk.injEq, Except.ok.injEq] at heq
              exact heq.2.2.2 ▸ hP2
            · rw [if_neg htc2] at heq
              exact ih _ _ _ _ hP2 tr' s hb' he' heq
          · rw [if_neg hst2] at heq
            rcases hftzeq : decodeFisbFtz rs cfg block t2.hexBlocks
                ((he.set block t.errs).set block t2.errs) stw tr t2.bits
                (extractBlockBitsFisb samples offset block).2.1
                (extractBlockBitsFisb samples offset block).2.2 with
              ⟨tr3, res3⟩ | ⟨hb3, he3, tr3⟩ <;> (rw [hftzeq] at heq; dsimp only at heq)
            · rw [heq] at hftzeq
              exact (decodeFisbFtz_errs rs r hwf cfg block t2.hexBlocks
                ((he.set block t.errs).set block t2.errs) stw tr t2.bits
                (extractBlockBitsFisb samples offset block).2.1
                (extractBlockBitsFisb samples offset block).2.2 hP2).1
                tr' s hb' he' hftzeq
            · exact ih _ _ _ _ ((decodeFisbFtz_errs rs r hwf cfg block
                t2.hexBlocks ((he.set block t.errs).set block t2.errs) stw tr
                t2.bits (extractBlockBitsFisb samples offset block).2.1
                (extractBlockBitsFisb samples offset block).2.2 hP2).2
                hb3 he3 tr3 hftzeq) tr' s hb' he' heq
        · rw [if_neg hbz] at heq
          dsimp only at heq
          rcases hftzeq : decodeFisbFtz rs cfg block hb (he.set block t.errs)
              stw tr (extractBlockBitsFisb samples offset block).1
              (extractBlockBitsFisb samples offset block).2.1
              (extractBlockBitsFisb samples offset block).2.2 with
            ⟨tr3, res3⟩ | ⟨hb3, he3, tr3⟩ <;> (rw [hftzeq] at heq; dsimp only at heq)
          · rw [heq] at hftzeq
            exact (decodeFisbFtz_errs rs r hwf cfg block hb
              (he.set block t.errs) stw tr
              (extractBlockBitsFisb samples offset block).1
              (extractBlockBitsFisb samples offset block).2.1
              (extractBlockBitsFisb samples offset block).2.2 hP1).1
              tr' s hb' he' hftzeq
          · exact ih _ _ _ _ ((decodeFisbFtz_errs rs r hwf cfg block hb
              (he.set block t.errs) stw tr
              (extractBlockBitsFisb samples offset block).1
              (extractBlockBitsFisb samples offset block).2.1
              (extractBlockBitsFisb samples offset block).2.2 hP1).2
              hb3 he3 tr3 hftzeq) tr' s hb' he' heq

theorem errsAllValid_iff (r : ℤ) (l : List ℤ) :
    errsAllValid r l = true ↔ ∀ e ∈ l, ErrP r e := by
  simp [errsAllValid, isValidErr, ErrP, List.all_eq_true]

theorem decodeAdsbValidate_errs (m : List ℕ) (errs : ℤ) :
    (decodeAdsbValidate m errs).2.2 = errs ∨ (decodeAdsbValidate m errs).2.2 = 98 := by
  unfold decodeAdsbValidate
  dsimp only
  split_ifs <;> simp

/-- C5: every per-block error count surfaced by the FIS-B frame decode lies
in `[0, 20]` or is one of the sentinels 98 (failed) and 99 (not attempted) —
in particular the internal known-prefix sentinel `-74` never reaches the
frame-level result — and the error count surfaced by an ADS-B decode
attempt lies in `[0, 12]` (short) or `[0, 14]` (long) or is 98.  The
Reed-Solomon decoders are assumed to report at most `r` corrected errors on
success, `r` being their parity-symbol count (20 / 12 / 14). -/
theorem surfaced_errs_valid (rsF rsS rsL : RSDecoder) (cfg : Config)
    (samples samplesA : List ℚ) (offset offsetA : ℕ) (isShort : Bool)
    (hb0 : Option (List (Option (List ℕ)))) (he0 : Option (List ℤ))
    (hF : RSWf rsF 20) (hS : RSWf rsS 12) (hL : RSWf rsL 14)
    (hhe : errsAllValid 20 (he0.getD (List.replicate 6 99)) = true) :
    (∀ tr' s hb' he', decodeFisbAux rsF cfg samples offset hb0 he0 =
        (tr', Except.ok (s, hb', he')) →
      errsAllValid 20 he' = true ∧ (-74 : ℤ) ∉ he') ∧
    (isValidErr (if isShort then 12 else 14)
        (decodeAdsb rsS rsL cfg samplesA offsetA isShort).2.2 = true ∧
      (decodeAdsb rsS rsL cfg samplesA offsetA isShort).2.2 ≠ -74) := by
  constructor
  · intro tr' s hb' he' heq
    have hP : ∀ e ∈ he0.getD (List.replicate 6 99), ErrP 20 e :=
      (errsAllValid_iff 20 _).mp hhe
    have h := decodeFisbLoop_errs rsF 20 hF cfg samples offset [0, 1, 2, 3, 4, 5]
      (hb0.getD (List.replicate 6 none)) (he0.getD (List.replicate 6 99))
      (-1) [] hP tr' s hb' he' heq
    refine ⟨(errsAllValid_iff 20 he').mpr h, fun hmem => ?_⟩
    rcases h _ hmem with ⟨h1, _⟩ | h1 | h1 <;> omega
  · have hwf : RSWf (if isShort then rsS else rsL) (if isShort then 12 else 14) := by
      cases isShort <;> simpa
    have hP : ErrP (if isShort then 12 else 14)
        (decodeAdsb rsS rsL cfg samplesA offsetA isShort).2.2 := by
      unfold decodeAdsb
      have h := tryShiftBits_errs (if isShort then rsS else rsL)
        (if isShort then 12 else 14) hwf cfg
        (extractBlockBitsAdsb samplesA offsetA isShort).1
        (extractBlockBitsAdsb samplesA offsetA isShort).2.1
        (extractBlockBitsAdsb samplesA offsetA isShort).2.2 (-1) false false
      by_cases hst : (adsbAttempt rsS rsL cfg samplesA offsetA isShort).status = true
      · rw [if_pos hst]
        cases hhex : (adsbAttempt rsS rsL cfg samplesA offsetA isShort).hex with
        | none => exact Or.inr (Or.inl rfl)
        | some m =>
          rcases decodeAdsbValidate_errs m
            (adsbAttempt rsS rsL cfg samplesA offsetA isShort).errs with hv | hv
          · rw [hv]
            rcases h with ⟨_, h1, h2⟩ | ⟨hf, _⟩
            · exact Or.inl ⟨h1, h2⟩
            · rw [show (adsbAttempt rsS rsL cfg samplesA offsetA isShort).status
                = false from hf] at hst
              cases hst
          · rw [hv]
            exact Or.inr (Or.inl rfl)
      · rw [if_neg hst]
        exact Or.inr (Or.inl rfl)
    refine ⟨by simp [isValidErr]; tauto, ?_⟩
    rcases hP with ⟨h1, _⟩ | h1 | h1 <;> omega

/-- Witness for C5: a frame whose six blocks all decode with 0 errors, and
an accepted ADS-B short decode with error count 0. -/
theorem surfaced_errs_valid_witness :
    errsAllValid 20 [0, 0, 0, 0, 0, 0] = true ∧
    ((-74 : ℤ) ∉ ([0, 0, 0, 0, 0, 0] : List ℤ)) ∧
    isValidErr 12 (decodeAdsb (rsAlways (List.replicate 18 0) 0) rsNever
      cfgDefault [] 1 true).2.2 = true := by
  have h := surfaced_errs_valid (rsAlways (List.replicate 72 255) 0)
    (rsAlways (List.replicate 18 0) 0) rsNever cfgDefault [] [] 1 1 true
    none none (fun _ _ => by show (0 : ℤ) ≤ 20; decide)
    (fun _ _ => by show (0 : ℤ) ≤ 12; decide)
    (fun _ _ => by show (-1 : ℤ) ≤ 14; decide) (by decide)
  have h1 := h.1
    [⟨0, -1, some 0, some 0⟩, ⟨1, 0, some 0, some 0⟩, ⟨2, 0, some 0, some 0⟩,
     ⟨3, 0, some 0, some 0⟩, ⟨4, 0, some 0, some 0⟩, ⟨5, 0, some 0, some 0⟩]
    true (List.replicate 6 (some (List.replicate 72 255))) [0, 0, 0, 0, 0, 0]
    (by rfl)
  exact ⟨h1.1, h1.2, h.2.1⟩

/-! ## Claim C8 -/

theorem chainFrom_append (e : TraceEntry) :
    ∀ (tr : List TraceEntry) (h0 : ℚ), chainFrom h0 tr →
      e.hint = hintAfter h0 tr → chainFrom h0 (tr ++ [e]) := by
  intro tr
  induction tr with
  | nil => intro h0 _ he; exact ⟨he, trivial⟩
  | cons e2 rest ih =>
    intro h0 hch he
    exact ⟨hch.1, ih _ hch.2 he⟩

theorem hintAfter_append (e : TraceEntry) :
    ∀ (tr : List TraceEntry) (h0 : ℚ),
      hintAfter h0 (tr ++ [e]) =
        match e.primary with | some s => s | none => hintAfter h0 tr := by
  intro tr
  induction tr with
  | nil => intro h0; rfl
  | cons e2 rest ih => intro h0; exact ih _

/-- Every trace entry appended by the trailing-zero branch carries the
current hint and no primary success, so the chain discipline and the hint
state are preserved. -/
theorem decodeFisbFtz_trace (rs : RSDecoder) (cfg : Config) (block : ℕ)
    (hexBlocks : List (Option (List ℕ))) (hexErrs : List ℤ) (stw : ℚ)
    (tr : List TraceEntry) (bits bitsBefore bitsAfter : List ℚ) (h0 : ℚ)
    (hch : chainFrom h0 tr) (hha : hintAfter h0 tr = stw) :
    (∀ tr' res, decodeFisbFtz rs cfg block hexBlocks hexErrs stw tr bits
        bitsBefore bitsAfter = Sum.inl (tr', res) → chainFrom h0 tr') ∧
    (∀ hb' he' tr', decodeFisbFtz rs cfg block hexBlocks hexErrs stw tr bits
        bitsBefore bitsAfter = Sum.inr (hb', he', tr') →
      chainFrom h0 tr' ∧ hintAfter h0 tr' = stw) := by
  have happ : ∀ p f, chainFrom h0 (tr ++ [⟨block, stw, p, f⟩]) ∧
      (p = none → hintAfter h0 (tr ++ [⟨block, stw, p, f⟩]) = stw) := by
    intro p f
    refine ⟨chainFrom_append _ tr h0 hch hha.symm, fun hp => ?_⟩
    rw [hintAfter_append]
    subst hp
    exact hha
  constructor
  · intro tr' res heq
    unfold decodeFisbFtz at heq
    by_cases hftz : cfg.fix_trailing_zeros = true
    · rw [if_pos hftz] at heq
      rcases hfz : fixZeros bits with e | ⟨found, bits2⟩ <;> rw [hfz] at heq
      · simp only [Sum.inl.injEq, Prod.mk.injEq] at heq
        exact heq.1 ▸ (happ none none).1
      · dsimp only at heq
        cases found with
        | false =>
          rw [if_neg (by simp)] at heq
          simp only [Sum.inl.injEq, Prod.mk.injEq] at heq
          exact heq.1 ▸ (happ none none).1
        | true =>
          rw [if_pos rfl] at heq
          by_cases hst2 : (tryShiftBits rs cfg bits2 bitsBefore bitsAfter stw
              false false).status = true
          · rw [if_pos hst2] at heq
            by_cases htc : (block0ThoroughCheck (hexBlocks.set block
                (tryShiftBits rs cfg bits2 bitsBefore bitsAfter stw
                  false false).hex)).1 = true
            · rw [if_pos htc] at heq
              simp only [Sum.inl.injEq, Prod.mk.injEq] at heq
              exact heq.1 ▸ (happ none (some (tryShiftBits rs cfg bits2
                bitsBefore bitsAfter stw false false).shift)).1
            · rw [if_neg htc] at heq
              cases heq
          · rw [if_neg hst2] at heq
            simp only [Sum.inl.injEq, Prod.mk.injEq] at heq
            exact heq.1 ▸ (happ none none).1
    · rw [if_neg hftz] at heq
      simp only [Sum.inl.injEq, Prod.mk.injEq] at heq
      exact heq.1 ▸ (happ none none).1
  · intro hb' he' tr' heq
    unfold decodeFisbFtz at heq
    by_cases hftz : cfg.fix_trailing_zeros = true
    · rw [if_pos hftz] at heq
      rcases hfz : fixZeros bits with e | ⟨found, bits2⟩ <;> rw [hfz] at heq
      · cases heq
      · dsimp only at heq
        cases found with
        | false => rw [if_neg (by simp)] at heq; cases heq
        | true =>
          rw [if_pos rfl] at heq
          by_cases hst2 : (tryShiftBits rs cfg bits2 bitsBefore bitsAfter stw
              false false).status = true
          · rw [if_pos hst2] at heq
            by_cases htc : (block0ThoroughCheck (hexBlocks.set block
                (tryShiftBits rs cfg bits2 bitsBefore bitsAfter stw
                  false false).hex)).1 = true
            · rw [if_pos htc] at heq
              cases heq
            · rw [if_neg htc] at heq
              simp only [Sum.inr.injEq, Prod.mk.injEq] at heq
              refine heq.2.2 ▸ ⟨(happ none (some (tryShiftBits rs cfg bits2
                bitsBefore bitsAfter stw false false).shift)).1, ?_⟩
              exact (happ none (some (tryShiftBits rs cfg bits2
                bitsBefore bitsAfter stw false false).shift)).2 rfl
          · rw [if_neg hst2] at heq
            cases heq
    · rw [if_neg hftz] at heq
      cases heq

/-- The hint discipline of one pass of the `decodeFisb` block loop: every
attempted block is handed the current hint; the hint advances exactly on a
primary success (to its shift) and is left alone by the block-zero tricks
and the trailing-zero retry. -/
theorem decodeFisbLoop_chain (rs : RSDecoder) (cfg : Config)
    (samples : List ℚ) (offset : ℕ) :
    ∀ (blocks : List ℕ) (hb : List (Option (List ℕ))) (he : List ℤ)
      (stw : ℚ) (tr : List TraceEntry) (h0 : ℚ),
      chainFrom h0 tr → hintAfter h0 tr = stw →
      chainFrom h0 (decodeFisbLoop rs cfg samples offset blocks hb he stw tr).1 := by
  intro blocks
  induction blocks with
  | nil =>
    intro hb he stw tr h0 hch _
    exact hch
  | cons block rest ih =>
    intro hb he stw tr h0 hch hha
    unfold decodeFisbLoop
    by_cases hskip : (hb.getD block none).isSome = true
    · rw [if_pos hskip]
      exact ih hb he stw tr h0 hch hha
    · rw [if_neg hskip]
      dsimp only
      set t := tryShiftBits rs cfg (extractBlockBitsFisb samples offset block).1
        (extractBlockBitsFisb samples offset block).2.1
        (extractBlockBitsFisb samples offset block).2.2 stw false false with ht
      have hchP : chainFrom h0
          (tr ++ [⟨block, stw, some t.shift, some t.shift⟩]) :=
        chainFrom_append _ tr h0 hch hha.symm
      have hhaP : hintAfter h0
          (tr ++ [⟨block, stw, some t.shift, some t.shift⟩]) = t.shift := by
        rw [hintAfter_append]
      have hchN : chainFrom h0 (tr ++ [⟨block, stw, none, some
          (blockZeroTricks rs cfg (extractBlockBitsFisb samples offset block).1
            (extractBlockBitsFisb samples offset block).2.1
            (extractBlockBitsFisb samples offset block).2.2 hb).shift⟩]) :=
        chainFrom_append _ tr h0 hch hha.symm
      have hhaN : hintAfter h0 (tr ++ [⟨block, stw, none, some
          (blockZeroTricks rs cfg (extractBlockBitsFisb samples offset block).1
            (extractBlockBitsFisb samples offset block).2.1
            (extractBlockBitsFisb samples offset block).2.2 hb).shift⟩]) = stw := by
        rw [hintAfter_append]
        exact hha
      by_cases hst : t.status = true
      · rw [if_pos hst]
        by_cases hb0 : block = 0
        · rw [if_pos hb0]
          by_cases htc : (block0ThoroughCheck (hb.set block t.hex)).1 = true
          · rw [if_pos htc]
            exact hchP
          · rw [if_neg htc]
            exact ih _ _ _ _ h0 hchP hhaP
        · rw [if_neg hb0]
          exact ih _ _ _ _ h0 hchP hhaP
      · rw [if_neg hst]
        by_cases hbz : block = 0 ∧ (cfg.replace_f6b = true ∨
            cfg.block_zero_fixed_bits = true)
        · rw [if_pos hbz]
          dsimp only
          set t2 := blockZeroTricks rs cfg
            (extractBlockBitsFisb samples offset block).1
            (extractBlockBitsFisb samples offset block).2.1
            (extractBlockBitsFisb samples offset block).2.2 hb with ht2
          by_cases hst2 : t2.status = true
          · rw [if_pos hst2]
            by_cases htc2 : (block0ThoroughCheck t2.hexBlocks).1 = true
            · rw [if_pos htc2]
              exact hchN
            · rw [if_neg htc2]
              exact ih _ _ _ _ h0 hchN hhaN
          · rw [if_neg hst2]
            rcases hftzeq : decodeFisbFtz rs cfg block t2.hexBlocks
                ((he.set block t.errs).set block t2.errs) stw tr t2.bits
                (extractBlockBitsFisb samples offset block).2.1
                (extractBlockBitsFisb samples offset block).2.2 with
              ⟨tr3, res3⟩ | ⟨hb3, he3, tr3⟩ <;> dsimp only
            · exact (decodeFisbFtz_trace rs cfg block t2.hexBlocks
                ((he.set block t.errs).set block t2.errs) stw tr t2.bits
                (extractBlockBitsFisb samples offset block).2.1
                (extractBlockBitsFisb samples offset block).2.2 h0 hch hha).1
                tr3 res3 hftzeq
            · have h3 := (decodeFisbFtz_trace rs cfg block t2.hexBlocks
                ((he.set block t.errs).set block t2.errs) stw tr t2.bits
                (extractBlockBitsFisb samples offset block).2.1
                (extractBlockBitsFisb samples offset block).2.2 h0 hch hha).2
                hb3 he3 tr3 hftzeq
              exact ih _ _ _ _ h0 h3.1 h3.2
        · rw [if_neg hbz]
          dsimp only
          rcases hftzeq : decodeFisbFtz rs cfg block hb (he.set block t.errs)
              stw tr (extractBlockBitsFisb samples offset block).1
              (extractBlockBitsFisb samples offset block).2.1
              (extractBlockBitsFisb samples offset block).2.2 with
            ⟨tr3, res3⟩ | ⟨hb3, he3, tr3⟩ <;> dsimp only
          · exact (decodeFisbFtz_trace rs cfg block hb (he.set block t.errs)
              stw tr (extractBlockBitsFisb samples offset block).1
              (extractBlockBitsFisb samples offset block).2.1
              (extractBlockBitsFisb samples offset block).2.2 h0 hch hha).1
              tr3 res3 hftzeq
          · have h3 := (decodeFisbFtz_trace rs cfg block hb
              (he.set block t.errs) stw tr
              (extractBlockBitsFisb samples offset block).1
              (extractBlockBitsFisb samples offset block).2.1
              (extractBlockBitsFisb samples offset block).2.2 h0 hch hha).2
              hb3 he3 tr3 hftzeq
            exact ih _ _ _ _ h0 h3.1 h3.2

/-- C8 (amended): within one FIS-B frame pass, every attempted block's
primary `tryShiftBits` call receives the current hint; the hint starts as
the sentinel -1 — so the table sweep, whose first entry is shift 0, makes
shift 0 the first shift tried for the first attempted block — and it
advances exactly on a primary success, to the successful shift.  A block-0
decode obtained through the block-zero tricks (or the trailing-zero retry)
leaves the hint unchanged; the tricks' successful shift is not propagated. -/
theorem decodeFisb_hint_discipline (rs : RSDecoder) (cfg : Config)
    (samples : List ℚ) (offset : ℕ) (hb0 : Option (List (Option (List ℕ))))
    (he0 : Option (List ℤ)) :
    chainFrom (-1) (decodeFisbAux rs cfg samples offset hb0 he0).1 ∧
    SHIFT_BY_PROBABILITY.head? = some 0 :=
  ⟨decodeFisbLoop_chain rs cfg samples offset [0, 1, 2, 3, 4, 5]
    (hb0.getD (List.replicate 6 none)) (he0.getD (List.replicate 6 99))
    (-1) [] (-1) trivial rfl, rfl⟩

/-- C8 counterexample: a concrete frame on which the claim as stated fails.
Block 0's primary attempt (hint -1) fails, the block-zero tricks decode it
with shift `-0.75`, and block 1 is then attempted — but its primary
`tryShiftBits` call still receives the hint `-1`, not the shift `-0.75`
that successfully decoded block 0. -/
theorem decodeFisb_tricks_shift_not_propagated :
    (decodeFisbAux rsC8 cfgNoFtz samplesC8 1 none none).1 =
      [⟨0, -1, none, some (-0.75)⟩, ⟨1, -1, none, none⟩] ∧
    (-0.75 : ℚ) ≠ -1 := by
  constructor
  · rfl
  · norm_num

end Ec978
